import Mathlib

/-!
Shallow embedding of the core of the `job-search-agent` repository
(extraction adapters' salary parsers, fingerprint deduplication,
staleness sweep, orchestrator, and match scorer), with theorems checking
the natural-language specification against the code.

Python strings are modelled as Lean `String` / `List Char`; Python `int`
as `Int` (or `Nat` where the source value is a count or a 0-100 score);
`None` as `Option.none`; a raised exception as `Except.error`.
Python float arithmetic `int(ratio * weight)` on a non-negative ratio is
modelled as the exact rational floor `(m * weight) / k` in `Nat`
(floor division); the float computation agrees except for sub-ulp
rounding at integer boundaries, which cannot cross the bounds proved here.
-/

namespace JobAgent

/-! ## Python-style string primitives shared by matcher and job_utils -/

/-- Python `\s` (the whitespace class used by `str.strip` and `re \s+`):
ASCII whitespace plus the ideographic space U+3000 common in the
Japanese source data. -/
def isSpaceChar (c : Char) : Bool :=
  c = ' ' || c = '\t' || c = '\n' || c = '\r' ||
  c = '\x0b' || c = '\x0c' || c = '　'

/-- Python `str.lstrip()` on a char list. -/
def lstrip (cs : List Char) : List Char :=
  cs.dropWhile isSpaceChar

/-- Python `str.rstrip()` on a char list (structural recursion:
drop the maximal run of trailing whitespace). -/
def rstrip : List Char → List Char
  | [] => []
  | c :: cs =>
    match rstrip cs with
    | [] => if isSpaceChar c then [] else [c]
    | r => c :: r

/-- Python `str.strip()`: remove leading and trailing whitespace. -/
def pyStrip (cs : List Char) : List Char :=
  lstrip (rstrip cs)

/-- Helper for `collapseWs`: the flag records whether we are inside a
whitespace run that has already emitted its single space. -/
def collapseAux : Bool → List Char → List Char
  | _, [] => []
  | inRun, c :: cs =>
    if isSpaceChar c then
      if inRun then collapseAux true cs else ' ' :: collapseAux true cs
    else c :: collapseAux false cs

/-- Python `re.sub(r"\s+", " ", text)`: collapse every maximal run of
whitespace into a single ASCII space. -/
def collapseWs (cs : List Char) : List Char :=
  collapseAux false cs

/-- Python's substring test `needle in hay` on char lists. -/
def isInfixL (needle : List Char) : List Char → Bool
  | [] => needle.isPrefixOf []
  | c :: cs => needle.isPrefixOf (c :: cs) || isInfixL needle cs

/-- Python `str.lower()`. Lean `Char.toLower` lowers ASCII letters and
leaves CJK characters unchanged, which matches the behaviour of
`str.lower` on the characters appearing in this data. -/
def lowerL (cs : List Char) : List Char :=
  cs.map Char.toLower

/-! ## Match Scorer (`src/matching/matcher.py`) -/

/-- Scoring weights from `matcher.py` (must sum to 100). -/
def WEIGHT_TITLE_KEYWORDS : Nat := 40

def WEIGHT_DESCRIPTION_KEYWORDS : Nat := 30

def WEIGHT_LOCATION : Nat := 15

def WEIGHT_SALARY : Nat := 15

/-- `JobMatcher._normalize_text`: lowercase, strip, collapse whitespace;
`None` and `""` normalize to `""`. -/
def matcherNormalize (text : Option String) : String :=
  match text with
  | none => ""
  | some s => String.mk (collapseWs (pyStrip (lowerL s.data)))

/-- Rows of the `jobs` table (fields used by the core; timestamps are
modelled as integers). -/
structure Job where
  id : Nat
  title : String
  company : String
  description : Option String := none
  salary_text : Option String := none
  salary_annual_min : Option Int := none
  salary_annual_max : Option Int := none
  location : Option String := none
  url : String
  job_board : String
  fingerprint : Option String := none
  last_seen_at : Int := 0
  is_active : Bool := true
  deriving Repr, DecidableEq

/-- Rows of the `user_criteria` table. The JSON columns hold either a
list of strings or nothing; the matcher's `isinstance(keywords, str)`
coercion of a bare string to a one-element list is subsumed by
modelling the post-coercion list. -/
structure UserCriteria where
  user_id : Nat
  keywords_json : Option (List String) := none
  locations_json : Option (List String) := none
  min_salary : Option Int := none
  max_salary : Option Int := none
  updated_at : Nat := 0
  deriving Repr, DecidableEq

/-- The per-keyword test of `JobMatcher._keyword_matches`: the
normalized keyword is non-empty and a substring of the normalized text. -/
def kwPred (text : Option String) (kw : String) : Bool :=
  let nk := matcherNormalize (some kw)
  nk ≠ "" && isInfixL nk.data (matcherNormalize text).data

/-- `JobMatcher._keyword_matches`: keywords whose normalization is a
non-empty substring of the normalized text (order preserved). -/
def keyword_matches (text : Option String) (keywords : List String) : List String :=
  if text = none || text = some "" || keywords = [] then []
  else keywords.filter (kwPred text)

/-- `JobMatcher._location_matches`: first user location whose
normalization is a non-empty substring of the normalized job location. -/
def location_matches (job_location : Option String) (user_locations : List String) :
    Bool × Option String :=
  if job_location = none || job_location = some "" || user_locations = [] then (false, none)
  else
    let njl := matcherNormalize job_location
    match user_locations.find? (fun loc =>
      let nl := matcherNormalize (some loc)
      nl ≠ "" && isInfixL nl.data njl.data) with
    | some loc => (true, some loc)
    | none => (false, none)

/-- Python `a or b` on optional ints (`0` and `None` are falsy). -/
def pyOrOpt (a b : Option Int) : Option Int :=
  match a with
  | some v => if v = 0 then b else some v
  | none => b

/-- Python `a or 0` on an optional int. -/
def pyOrZero (a : Option Int) : Int :=
  match a with
  | some v => v
  | none => 0

/-- Python `a or float("inf")` on an optional int; `none` in the result
stands for `+inf` (so `some 0` maps to `+inf` by falsiness of `0`). -/
def pyOrInf (a : Option Int) : Option Int :=
  match a with
  | some v => if v = 0 then none else some v
  | none => none

/-- `JobMatcher._salary_in_range`, line by line.  `job_low <= user_high`
raises `TypeError` in Python when `job_low` is `None` (reachable when one
job bound is `0` and the other `None`); that raise is `Except.error`.
The comparison short-circuits exactly as the Python `and` does. -/
def salary_in_range (job_min job_max user_min user_max : Option Int) :
    Except Unit Bool :=
  if job_min = none && job_max = none then .ok false
  else if user_min = none && user_max = none then .ok true
  else
    let job_low := pyOrOpt job_min job_max
    let job_high := pyOrOpt job_max job_min
    let user_low : Int := pyOrZero user_min
    let user_high : Option Int := pyOrInf user_max
    match job_low with
    | none => .error ()
    | some jl =>
      let c1 : Bool := match user_high with
        | none => true
        | some uh => decide (jl ≤ uh)
      if c1 = false then .ok false
      else
        match job_high with
        | none => .error ()
        | some jh => .ok (decide (jh ≥ user_low))

/-- Breakdown record (`MatchDetails` dataclass). -/
structure MatchDetails where
  title_keywords_matched : List String := []
  description_keywords_matched : List String := []
  location_matched : Bool := false
  location_value : Option String := none
  salary_in_range : Bool := false
  salary_value : Option Int × Option Int := (none, none)
  title_score : Nat := 0
  description_score : Nat := 0
  location_score : Nat := 0
  salary_score : Nat := 0
  deriving Repr, DecidableEq

/-- The pure part of `JobMatcher.match_job_to_user`: every component
except the salary check, which is supplied as `salary_matched`.
`int(ratio * weight)` is the exact floor `(m * weight) / k`. -/
def match_scores (job : Job) (criteria : UserCriteria) (salary_matched : Bool) :
    Nat × MatchDetails :=
  let keywords := criteria.keywords_json.getD []
  let locations := criteria.locations_json.getD []
  -- Title keyword matching (40%)
  let title_matches :=
    if keywords ≠ [] then keyword_matches (some job.title) keywords else []
  let title_score :=
    if keywords ≠ [] then title_matches.length * WEIGHT_TITLE_KEYWORDS / keywords.length
    else 0
  -- Description keyword matching (30%)
  let desc_matches :=
    if keywords ≠ [] then keyword_matches job.description keywords else []
  let unique_desc_matches := desc_matches.filter (fun k => !(title_matches.contains k))
  let remaining_keywords := keywords.length - title_matches.length
  let description_score :=
    if keywords ≠ [] then
      if remaining_keywords > 0 then
        unique_desc_matches.length * WEIGHT_DESCRIPTION_KEYWORDS / remaining_keywords
      else if desc_matches ≠ [] then WEIGHT_DESCRIPTION_KEYWORDS else 0
    else 0
  -- Location matching (15%)
  let locPair :=
    if locations ≠ [] then location_matches job.location locations else (false, none)
  let location_score :=
    if locations ≠ [] then (if locPair.1 then WEIGHT_LOCATION else 0) else 0
  -- Salary matching (15%)
  let salary_score := if salary_matched then WEIGHT_SALARY else 0
  let details : MatchDetails :=
    { title_keywords_matched := title_matches
      description_keywords_matched := unique_desc_matches
      location_matched := locPair.1
      location_value := locPair.2
      salary_in_range := salary_matched
      salary_value := (job.salary_annual_min, job.salary_annual_max)
      title_score := title_score
      description_score := description_score
      location_score := location_score
      salary_score := salary_score }
  let total_score := title_score + description_score + location_score + salary_score
  (total_score, details)

/-- `JobMatcher.match_job_to_user`: run the salary-overlap check (which
can raise, see `salary_in_range`) and assemble the score and breakdown. -/
def match_job_to_user (job : Job) (criteria : UserCriteria) :
    Except Unit (Nat × MatchDetails) :=
  (salary_in_range job.salary_annual_min job.salary_annual_max
    criteria.min_salary criteria.max_salary).map (match_scores job criteria)

/-! ## SHA-256 (Python `hashlib.sha256`), over `Nat` words mod 2^32 -/

/-- Truncate to a 32-bit word. -/
def w32 (n : Nat) : Nat := n % 4294967296

/-- 32-bit rotate right (input assumed < 2^32). -/
def rotr32 (n x : Nat) : Nat := x / 2 ^ n + x % 2 ^ n * 2 ^ (32 - n)

def shr32 (n x : Nat) : Nat := x / 2 ^ n

def xor3 (a b c : Nat) : Nat := Nat.xor (Nat.xor a b) c

def bigSigma0 (x : Nat) : Nat := xor3 (rotr32 2 x) (rotr32 13 x) (rotr32 22 x)

def bigSigma1 (x : Nat) : Nat := xor3 (rotr32 6 x) (rotr32 11 x) (rotr32 25 x)

def smallSigma0 (x : Nat) : Nat := xor3 (rotr32 7 x) (rotr32 18 x) (shr32 3 x)

def smallSigma1 (x : Nat) : Nat := xor3 (rotr32 17 x) (rotr32 19 x) (shr32 10 x)

def chFn (x y z : Nat) : Nat := Nat.xor (Nat.land x y) (Nat.land (Nat.xor x 4294967295) z)

def majFn (x y z : Nat) : Nat :=
  Nat.xor (Nat.xor (Nat.land x y) (Nat.land x z)) (Nat.land y z)

/-- The 64 SHA-256 round constants (decimal, per FIPS 180-4). -/
def sha256K : List Nat :=
  [1116352408, 1899447441, 3049323471, 3921009573, 961987163,
   1508970993, 2453635748, 2870763221, 3624381080, 310598401,
   607225278, 1426881987, 1925078388, 2162078206, 2614888103,
   3248222580, 3835390401, 4022224774, 264347078, 604807628,
   770255983, 1249150122, 1555081692, 1996064986, 2554220882,
   2821834349, 2952996808, 3210313671, 3336571891, 3584528711,
   113926993, 338241895, 666307205, 773529912, 1294757372,
   1396182291, 1695183700, 1986661051, 2177026350, 2456956037,
   2730485921, 2820302411, 3259730800, 3345764771, 3516065817,
   3600352804, 4094571909, 275423344, 430227734, 506948616,
   659060556, 883997877, 958139571, 1322822218, 1537002063,
   1747873779, 1955562222, 2024104815, 2227730452, 2361852424,
   2428436474, 2756734187, 3204031479, 3329325298]

/-- The 8 initial hash words (decimal, per FIPS 180-4). -/
def sha256H0 : List Nat :=
  [1779033703, 3144134277, 1013904242, 2773480762,
   1359893119, 2600822924, 528734635, 1541459225]

/-- Group bytes into big-endian 32-bit words. -/
def bytesToWords : List Nat → List Nat
  | b0 :: b1 :: b2 :: b3 :: rest => (((b0 * 256 + b1) * 256 + b2) * 256 + b3) :: bytesToWords rest
  | _ => []

/-- `k` big-endian bytes of `n`. -/
def natToBytesBE (k : Nat) (n : Nat) : List Nat :=
  (List.range k).map (fun i => n / 256 ^ (k - 1 - i) % 256)

/-- SHA-256 message padding: 0x80, zeros to 56 mod 64, 8-byte bit length. -/
def sha256Pad (msg : List Nat) : List Nat :=
  let L := msg.length
  let z := (120 - (L + 1) % 64) % 64
  msg ++ [0x80] ++ List.replicate z 0 ++ natToBytesBE 8 (L * 8)

/-- Split into 64-byte blocks. -/
def chunks64 : List Nat → List (List Nat)
  | [] => []
  | b :: bs => (b :: bs).take 64 :: chunks64 ((b :: bs).drop 64)
termination_by bs => bs.length
decreasing_by
  simp only [List.length_drop, List.length_cons]
  omega

/-- Extend the 16-word schedule to 64 words (apply `n` extension steps). -/
def extendSchedule : Nat → List Nat → List Nat
  | 0, ws => ws
  | n + 1, ws =>
    let t := ws.length
    let nw := w32 (smallSigma1 (ws.getD (t - 2) 0) + ws.getD (t - 7) 0 +
      smallSigma0 (ws.getD (t - 15) 0) + ws.getD (t - 16) 0)
    extendSchedule n (ws ++ [nw])

/-- One compression round on the 8-word state. -/
def compressStep (st : List Nat) (kw : Nat × Nat) : List Nat :=
  match st with
  | [a, b, c, d, e, f, g, hh] =>
    let t1 := w32 (hh + bigSigma1 e + chFn e f g + kw.1 + kw.2)
    let t2 := w32 (bigSigma0 a + majFn a b c)
    [w32 (t1 + t2), a, b, c, w32 (d + t1), e, f, g]
  | other => other

/-- Process one 64-byte block. -/
def processBlock (hs : List Nat) (block : List Nat) : List Nat :=
  let ws := extendSchedule 48 (bytesToWords block)
  let st := (sha256K.zip ws).foldl compressStep hs
  (hs.zip st).map (fun p => w32 (p.1 + p.2))

def sha256Words (msg : List Nat) : List Nat :=
  (chunks64 (sha256Pad msg)).foldl processBlock sha256H0

def hexDigitChar (n : Nat) : Char :=
  if n < 10 then Char.ofNat (48 + n) else Char.ofNat (87 + n)

def wordToHex (w : Nat) : List Char :=
  (List.range 8).map (fun i => hexDigitChar (w / 16 ^ (7 - i) % 16))

/-- `hashlib.sha256(bytes).hexdigest()`. -/
def sha256Hex (msg : List Nat) : String :=
  String.mk (((sha256Words msg).map wordToHex).flatten)

/-- UTF-8 encoding of one character (Python `str.encode("utf-8")`). -/
def utf8Bytes (c : Char) : List Nat :=
  let n := c.toNat
  if n < 128 then [n]
  else if n < 2048 then [192 + n / 64, 128 + n % 64]
  else if n < 65536 then [224 + n / 4096, 128 + n / 64 % 64, 128 + n % 64]
  else [240 + n / 262144, 128 + n / 4096 % 64, 128 + n / 64 % 64, 128 + n % 64]

def strBytes (s : String) : List Nat := (s.data.map utf8Bytes).flatten

/-! ## Fingerprint generation (`src/models/job_utils.py`) -/

/-- The legal-entity affix 株式会社 stripped by `normalize_text`. -/
def affixChars : List Char := ['株', '式', '会', '社']

/-- The structural punctuation removed by `normalize_text`
(`【】[]（）()「」『』`). -/
def isBracketChar (c : Char) : Bool :=
  c = '【' || c = '】' || c = '[' || c = ']' || c = '（' || c = '）' ||
  c = '(' || c = ')' || c = '「' || c = '」' || c = '『' || c = '』'

/-- `re.sub(r"^株式会社\s*", "", text)`: one anchored removal of the
affix and the whitespace following it. -/
def subPrefixAffix (cs : List Char) : List Char :=
  if affixChars.isPrefixOf cs then lstrip (cs.drop 4) else cs

/-- `re.sub(r"\s*株式会社$", "", text)`: one anchored removal of the
trailing affix and the whitespace preceding it. -/
def subSuffixAffix (cs : List Char) : List Char :=
  if affixChars.reverse.isPrefixOf cs.reverse then
    ((cs.reverse.drop 4).dropWhile isSpaceChar).reverse
  else cs

/-- The lowercase-strip-collapse stage of `normalize_text` (everything
before the affix and bracket removals). -/
def normCore (cs : List Char) : List Char := collapseWs (pyStrip (lowerL cs))

/-- `job_utils.normalize_text`. -/
def normalize_text (s : String) : String :=
  if s.data = [] then ""
  else
    String.mk (pyStrip
      ((subSuffixAffix (subPrefixAffix (normCore s.data))).filter (fun c => !isBracketChar c)))

/-- `job_utils.generate_fingerprint`: first 16 hex chars of the SHA-256
of `normalize(title) | normalize(company) | job_board.lower().strip()`. -/
def generate_fingerprint (title company job_board : String) : String :=
  let normalized := String.intercalate "|"
    [normalize_text title, normalize_text company, String.mk (pyStrip (lowerL job_board.data))]
  String.mk ((sha256Hex (strBytes normalized)).data.take 16)

/-! ## Deduplication and staleness (`job_utils.py`, `scrape_all_boards.py`) -/

/-- Replace the element at index `i` (used to model an ORM row update). -/
def updateAt (i : Nat) (f : α → α) : List α → List α
  | [] => []
  | x :: xs =>
    match i with
    | 0 => f x :: xs
    | j + 1 => x :: updateAt j f xs

/-- Index of the first element satisfying `p` (`query(...).first()`). -/
def firstIdxWhere (p : α → Bool) : List α → Option Nat
  | [] => none
  | x :: xs => if p x then some 0 else (firstIdxWhere p xs).map (· + 1)

/-- `job_utils.find_duplicate_job`: URL lookup first, fingerprint lookup
second; returns the index of the first matching row.  A row whose
`fingerprint` column is NULL never matches the fingerprint lookup. -/
def find_duplicate_job (db : List Job) (url fp : String) : Option Nat :=
  match firstIdxWhere (fun j => j.url = url) db with
  | some i => some i
  | none => firstIdxWhere (fun j => j.fingerprint = some fp) db

inductive IngestOutcome
  | added
  | duplicate
  deriving Repr, DecidableEq

/-- A scraped job dict handed to the storage loop of `run_scraper`. -/
structure JobData where
  title : String
  company : String
  description : Option String := none
  salary_text : Option String := none
  salary_annual_min : Option Int := none
  salary_annual_max : Option Int := none
  location : Option String := none
  url : String
  job_board : String
  deriving Repr, DecidableEq

/-- One iteration of the storage loop of `run_scraper`
(`scripts/scrape_all_boards.py` lines 194-227): fingerprint, duplicate
lookup, refresh-or-insert.  The fresh row's synthetic primary key is the
current list length. -/
def ingest_job (db : List Job) (jd : JobData) (now : Int) : List Job × IngestOutcome :=
  let fp := generate_fingerprint jd.title jd.company jd.job_board
  match find_duplicate_job db jd.url fp with
  | some i =>
    (updateAt i (fun j => { j with last_seen_at := now, is_active := true }) db, .duplicate)
  | none =>
    (db ++ [{ id := db.length
              title := jd.title
              company := jd.company
              description := jd.description
              salary_text := jd.salary_text
              salary_annual_min := jd.salary_annual_min
              salary_annual_max := jd.salary_annual_max
              location := jd.location
              url := jd.url
              job_board := jd.job_board
              fingerprint := some fp
              last_seen_at := now
              is_active := true }], .added)

/-- The WHERE clause of `mark_stale_jobs_inactive`: active, last seen
before `now - days * 86400`, and — when the `job_board` argument is
truthy (Python `if job_board:`, so an empty string is ignored) — from
that board. -/
def staleWhere (now days_threshold : Int) (job_board : Option String) (j : Job) : Bool :=
  j.is_active && j.last_seen_at < now - days_threshold * 86400 &&
    (match job_board with
     | some b => if b = "" then true else j.job_board = b
     | none => true)

/-- `job_utils.mark_stale_jobs_inactive`: one bulk UPDATE flipping
`is_active` on every matching row, returning the rowcount. -/
def mark_stale_jobs_inactive (db : List Job) (now days_threshold : Int)
    (job_board : Option String) : List Job × Nat :=
  db.foldr
    (fun j st =>
      if staleWhere now days_threshold job_board j then
        ({ j with is_active := false } :: st.1, st.2 + 1)
      else (j :: st.1, st.2))
    ([], 0)

/-! ## Orchestrator (`scripts/scrape_all_boards.py`) -/

/-- `ScraperResult` dataclass (`duration_seconds`, a wall-clock reading,
is outside the embedding). -/
structure ScraperResult where
  name : String
  success : Bool
  jobs_scraped : Nat := 0
  jobs_added : Nat := 0
  duplicates : Nat := 0
  errors : Nat := 0
  error_message : Option String := none
  deriving Repr, DecidableEq

/-- One iteration of the storage loop of `run_scraper`, threading the
(db, jobs_added, duplicates) state. -/
def store_step (now : Int) (st : List Job × Nat × Nat) (jd : JobData) : List Job × Nat × Nat :=
  let (db', oc) := ingest_job st.1 jd now
  match oc with
  | .added => (db', st.2.1 + 1, st.2.2)
  | .duplicate => (db', st.2.1, st.2.2 + 1)

/-- The storage loop of `run_scraper`: ingest every scraped job,
counting added and duplicate rows. -/
def store_jobs (db : List Job) (jobs : List JobData) (now : Int) : List Job × Nat × Nat :=
  jobs.foldl (store_step now) (db, 0, 0)

/-- `run_scraper` with error isolation: an adapter is its name plus the
outcome of `scraper.search(...)` — a job list, or the exception it
raised.  A raising adapter writes nothing and yields a failed result
with the message; a completing adapter stores its jobs and yields a
successful result with its counts. -/
def run_scraper (name : String) (outcome : Except String (List JobData))
    (db : List Job) (now : Int) : ScraperResult × List Job :=
  match outcome with
  | .error e => ({ name := name, success := false, error_message := some e }, db)
  | .ok jobs =>
    let (db', added, dups) := store_jobs db jobs now
    ({ name := name, success := true, jobs_scraped := jobs.length,
       jobs_added := added, duplicates := dups, errors := 0 }, db')

/-- `run_all_scrapers` over the enabled adapters, sequential mode (in
parallel mode the same per-adapter runs are dispatched to a thread pool
and all results are collected before reporting; completion order is
unspecified there, so the report list is modelled in configuration
order). -/
def run_all_scrapers : List (String × Except String (List JobData)) → List Job → Int →
    List ScraperResult × List Job
  | [], db, _ => ([], db)
  | a :: rest, db, now =>
    let (r, db') := run_scraper a.1 a.2 db now
    let (rs, db'') := run_all_scrapers rest db' now
    (r :: rs, db'')

/-! ## Salary parsers (`scrapers/indeed.py`, `scrapers/doda.py`,
`scrapers/green.py`)

The `re` patterns are translated into explicit scanners with Python's
matching discipline: leftmost scan, alternatives in written order,
greedy quantifiers with backtracking (realised as candidate lists in
priority order).  `findall` resumes scanning after each match. -/

/-- Python `\d` restricted to the digits occurring in this data: ASCII
and full-width digits. -/
def isPyDigit (c : Char) : Bool :=
  ('0' ≤ c && c ≤ '9') || ('０' ≤ c && c ≤ '９')

def digitVal (c : Char) : Nat :=
  if '0' ≤ c && c ≤ '9' then c.toNat - 48 else c.toNat - 65296

/-- `int(captured.replace(",", ""))` — the captured strings consist of
digits and thousands separators only. -/
def digitsToNat (cs : List Char) : Nat :=
  cs.foldl (fun acc c => if c = ',' then acc else acc * 10 + digitVal c) 0

/-- Exactly `n` digits from the front. -/
def takeDigits : Nat → List Char → Option (List Char × List Char)
  | 0, cs => some ([], cs)
  | _ + 1, [] => none
  | n + 1, c :: cs =>
    if isPyDigit c then (takeDigits n cs).map (fun p => (c :: p.1, p.2)) else none

/-- Candidates for `(?:,\d{3})*`, greedy first (most repetitions), with
the consumed characters and the remainder. -/
def commaCands : Nat → List Char → List (List Char × List Char)
  | 0, cs => [([], cs)]
  | fuel + 1, cs =>
    match cs with
    | ',' :: a :: b :: c :: rest =>
      if isPyDigit a && isPyDigit b && isPyDigit c then
        ((commaCands fuel rest).map (fun p => (',' :: a :: b :: c :: p.1, p.2))) ++ [([], cs)]
      else [([], cs)]
    | _ => [([], cs)]

/-- `[n, n-1, ..., 1]`. -/
def countdown : Nat → List Nat
  | 0 => []
  | n + 1 => (n + 1) :: countdown n

/-- Candidates for the first alternative `\d{1,3}(?:,\d{3})*` in
priority order (3 digits before 2 before 1; more comma groups first). -/
def alt1Cands (cs : List Char) : List (List Char × List Char) :=
  ([3, 2, 1].filterMap (fun t => takeDigits t cs)).flatMap
    (fun p => (commaCands p.2.length p.2).map (fun q => (p.1 ++ q.1, q.2)))

/-- Candidates for the second alternative `\d+`, greedy first. -/
def alt2Cands (cs : List Char) : List (List Char × List Char) :=
  let ds := cs.takeWhile isPyDigit
  let rest := cs.dropWhile isPyDigit
  (countdown ds.length).map (fun n => (ds.take n, ds.drop n ++ rest))

/-- Candidates for the capture `(\d{1,3}(?:,\d{3})*|\d+)`. -/
def numCands (cs : List Char) : List (List Char × List Char) :=
  alt1Cands cs ++ alt2Cands cs

/-- Mandatory `万円` suffix (doda patterns). -/
def sufManYen : List Char → Option (List Char)
  | '万' :: '円' :: r => some r
  | _ => none

/-- `万?円` suffix (indeed pattern): the greedy optional `万` backtracks
to nothing only when the next char is `円`, which `万` is not, so the
two cases below are exhaustive. -/
def sufOptManYen : List Char → Option (List Char)
  | '万' :: '円' :: r => some r
  | '円' :: r => some r
  | _ => none

/-- `findall` for `(NUM)suffix`: scan left to right, on a match emit the
capture and resume after the consumed suffix, otherwise advance one
character.  Fuel is the scan length. -/
def findAllNum (suf : List Char → Option (List Char)) : Nat → List Char → List (List Char)
  | 0, _ => []
  | _ + 1, [] => []
  | fuel + 1, c :: cs =>
    match (numCands (c :: cs)).findSome? (fun p => (suf p.2).map (fun r => (p.1, r))) with
    | some (cap, rest) => cap :: findAllNum suf fuel rest
    | none => findAllNum suf fuel cs

def containsSub (needle hay : String) : Bool := isInfixL needle.data hay.data

/-- `IndeedScraper.SALARY_PATTERN.findall`:
`(\d{1,3}(?:,\d{3})*|\d+)万?円`. -/
def indeedFindAll (s : String) : List (List Char) :=
  findAllNum sufOptManYen s.data.length s.data

/-- `IndeedScraper._parse_salary`. -/
def indeed_parse_salary (salary_text : Option String) : Option Int × Option Int :=
  match salary_text with
  | none => (none, none)
  | some text =>
    if text = "" then (none, none)
    else
      let ms := indeedFindAll text
      if ms = [] then (none, none)
      else
        let amounts : List Nat := ms.map (fun m =>
          let v := digitsToNat m
          if v < 1000 then v * 10000 else v)
        let is_monthly := containsSub "月給" text || containsSub "月収" text
        let is_annual := containsSub "年収" text || containsSub "年俸" text
        let amounts := if is_monthly && !is_annual then
            amounts.map (fun a => if a < 2500000 then a * 12 else a)
          else amounts
        match amounts with
        | [] => (none, none)
        | a :: rest => (some ((rest.foldl min a : Nat) : Int), some ((rest.foldl max a : Nat) : Int))

/-- `DodaScraper.SALARY_PATTERN.findall`:
`(\d{1,3}(?:,\d{3})*|\d+)万円`. -/
def dodaGeneralFindAll (s : String) : List (List Char) :=
  findAllNum sufManYen s.data.length s.data

/-- One attempt of `DodaScraper.ANNUAL_SALARY_PATTERN`
(`(?:年収|予定年収)[＞>]?(\d{1,3}(?:,\d{3})*|\d+)万円`) at the head of
the text: the literal tag (alternatives in written order), an optional
full-width or ASCII bracket (backtracking to nothing cannot help, since
the capture must then start with the bracket, which is not a digit),
then the capture and `万円`. -/
def dodaAnnualTryAt (cs : List Char) : Option (List Char × List Char) :=
  let afterTag : Option (List Char) :=
    match cs with
    | '年' :: '収' :: r => some r
    | '予' :: '定' :: '年' :: '収' :: r => some r
    | _ => none
  match afterTag with
  | none => none
  | some r =>
    let r2 := match r with
      | '＞' :: rr => rr
      | '>' :: rr => rr
      | _ => r
    (numCands r2).findSome? (fun p => (sufManYen p.2).map (fun rest => (p.1, rest)))

/-- `ANNUAL_SALARY_PATTERN.findall`. -/
def dodaAnnualFindAllAux : Nat → List Char → List (List Char)
  | 0, _ => []
  | _ + 1, [] => []
  | fuel + 1, c :: cs =>
    match dodaAnnualTryAt (c :: cs) with
    | some (cap, rest) => cap :: dodaAnnualFindAllAux fuel rest
    | none => dodaAnnualFindAllAux fuel cs

def dodaAnnualFindAll (s : String) : List (List Char) :=
  dodaAnnualFindAllAux s.data.length s.data

/-- `DodaScraper._parse_salary`. -/
def doda_parse_salary (salary_text : Option String) : Option Int × Option Int :=
  match salary_text with
  | none => (none, none)
  | some text =>
    if text = "" then (none, none)
    else
      let is_monthly := containsSub "月給" text || containsSub "月収" text
      let is_annual := containsSub "年収" text || containsSub "予定年収" text
      let ms :=
        if is_annual && is_monthly then dodaAnnualFindAll text
        else if is_annual then
          let m := dodaAnnualFindAll text
          if m = [] then dodaGeneralFindAll text else m
        else dodaGeneralFindAll text
      if ms = [] then (none, none)
      else
        let amounts : List Nat := ms.map (fun m => digitsToNat m * 10000)
        let amounts := if is_monthly && !is_annual then
            amounts.map (fun a => if a < 2500000 then a * 12 else a)
          else amounts
        match amounts with
        | [] => (none, none)
        | a :: rest => (some ((rest.foldl min a : Nat) : Int), some ((rest.foldl max a : Nat) : Int))

/-- The separator class `[〜~～ー－-]` of `GreenScraper.SALARY_PATTERN`. -/
def isGreenSep (c : Char) : Bool :=
  c = '〜' || c = '~' || c = '～' || c = 'ー' || c = '－' || c = '-'

/-- `(\d{3,})\s*万円?` : at least three digits (greedy — backtracking
cannot help because every continuation starts with a non-digit), spaces,
`万`, optional `円` (consuming a present `円` is always safe because the
continuation never starts with `円`).  Returns capture and remainder. -/
def greenNumPart (cs : List Char) : Option (List Char × List Char) :=
  let ds := cs.takeWhile isPyDigit
  if ds.length < 3 then none
  else
    match (cs.dropWhile isPyDigit).dropWhile isSpaceChar with
    | '万' :: '円' :: r => some (ds, r)
    | '万' :: r => some (ds, r)
    | _ => none

/-- `GreenScraper.SALARY_PATTERN` tried at one position:
`(\d{3,})\s*万円?\s*[〜~～ー－-]\s*(\d{3,})\s*万円?`. -/
def greenRangeAt (cs : List Char) : Option (List Char × List Char) :=
  match greenNumPart cs with
  | none => none
  | some (d1, r1) =>
    match r1.dropWhile isSpaceChar with
    | c :: r2 =>
      if isGreenSep c then
        match greenNumPart (r2.dropWhile isSpaceChar) with
        | some (d2, _) => some (d1, d2)
        | none => none
      else none
    | [] => none

/-- `SALARY_PATTERN.search`: leftmost position with a match. -/
def greenSearchRange : List Char → Option (List Char × List Char)
  | [] => none
  | c :: cs =>
    match greenRangeAt (c :: cs) with
    | some p => some p
    | none => greenSearchRange cs

/-- `GreenScraper.SALARY_SINGLE_PATTERN` (`(\d{3,})\s*万円`) at one
position. -/
def greenSingleAt (cs : List Char) : Option (List Char) :=
  let ds := cs.takeWhile isPyDigit
  if ds.length < 3 then none
  else
    match (cs.dropWhile isPyDigit).dropWhile isSpaceChar with
    | '万' :: '円' :: _ => some ds
    | _ => none

def greenSearchSingle : List Char → Option (List Char)
  | [] => none
  | c :: cs =>
    match greenSingleAt (c :: cs) with
    | some d => some d
    | none => greenSearchSingle cs

/-- `GreenScraper._parse_salary`. -/
def green_parse_salary (salary_text : Option String) : Option Int × Option Int :=
  match salary_text with
  | none => (none, none)
  | some text =>
    if text = "" then (none, none)
    else
      match greenSearchRange text.data with
      | some (d1, d2) =>
        (some ((digitsToNat d1 * 10000 : Nat) : Int), some ((digitsToNat d2 * 10000 : Nat) : Int))
      | none =>
        match greenSearchSingle text.data with
        | some d =>
          (some ((digitsToNat d * 10000 : Nat) : Int), some ((digitsToNat d * 10000 : Nat) : Int))
        | none => (none, none)

/-! ## `JobMatcher.match_all_for_user` (`matcher.py` lines 233-331) -/

/-- Rows of the `users` table (fields the matcher reads). -/
structure DbUser where
  id : Nat
  name : String
  deriving Repr, DecidableEq

/-- Rows of the `matched_jobs` table.  `match_score` is stored as
`score / 100.0`; the quotient is modelled exactly in `ℚ`. -/
structure MatchedJob where
  user_id : Nat
  job_id : Nat
  match_score : Rat
  deriving Repr, DecidableEq

/-- `MatchSummary` dataclass. -/
structure MatchSummary where
  user_id : Nat
  total_jobs : Nat := 0
  jobs_matched : Nat := 0
  jobs_below_threshold : Nat := 0
  new_matches : Nat := 0
  existing_matches : Nat := 0
  deriving Repr, DecidableEq

/-- `order_by(UserCriteria.updated_at.desc()).first()` over the user's
criteria: a row with maximal `updated_at` (the database's ordering of
ties is unspecified; the model keeps the earliest such row). -/
def latest_criteria (criterias : List UserCriteria) (uid : Nat) : Option UserCriteria :=
  (criterias.filter (fun c => c.user_id = uid)).foldl
    (fun acc c =>
      match acc with
      | none => some c
      | some best => if c.updated_at > best.updated_at then some c else some best)
    none

/-- The body of the per-job loop of `match_all_for_user`: score the job;
at or above threshold update the first existing `(user, job)` row or
append a new one; below threshold only count it. -/
def process_job (uid min_score : Nat) (criteria : UserCriteria)
    (st : MatchSummary × List MatchedJob) (job : Job) :
    Except Unit (MatchSummary × List MatchedJob) := do
  let (score, _) ← match_job_to_user job criteria
  let (summary, matched) := st
  if score ≥ min_score then
    let summary := { summary with jobs_matched := summary.jobs_matched + 1 }
    match firstIdxWhere (fun m => m.user_id = uid && m.job_id = job.id) matched with
    | some i =>
      .ok ({ summary with existing_matches := summary.existing_matches + 1 },
        updateAt i (fun m => { m with match_score := (score : Rat) / 100 }) matched)
    | none =>
      .ok ({ summary with new_matches := summary.new_matches + 1 },
        matched ++ [{ user_id := uid, job_id := job.id, match_score := (score : Rat) / 100 }])
  else
    .ok ({ summary with jobs_below_threshold := summary.jobs_below_threshold + 1 }, matched)

/-- `JobMatcher.match_all_for_user`: missing user or criteria return an
empty summary without touching storage; otherwise every known job is
scored and the `matched_jobs` rows are upserted.  A scoring exception
rolls the transaction back and re-raises (`Except.error`: no state is
returned). -/
def match_all_for_user (users : List DbUser) (criterias : List UserCriteria)
    (jobs : List Job) (matched : List MatchedJob) (user_id min_score : Nat) :
    Except Unit (MatchSummary × List MatchedJob) :=
  match users.find? (fun u => u.id = user_id) with
  | none => .ok ({ user_id := user_id }, matched)
  | some _ =>
    match latest_criteria criterias user_id with
    | none => .ok ({ user_id := user_id }, matched)
    | some criteria =>
      jobs.foldlM (process_job user_id min_score criteria)
        ({ user_id := user_id, total_jobs := jobs.length }, matched)

/-- A job that scores below `min_score` against the given criteria
(used to describe the below-threshold count; errors count as not
below, but a run that errors returns no summary at all). -/
def isBelow (criteria : UserCriteria) (min_score : Nat) (job : Job) : Bool :=
  match match_job_to_user job criteria with
  | .ok (sc, _) => decide (sc < min_score)
  | .error _ => false

/-- At most one `matched_jobs` row per `(user, job)` pair. -/
def pairsUnique (l : List MatchedJob) : Prop :=
  l.Pairwise (fun m1 m2 => ¬(m1.user_id = m2.user_id ∧ m1.job_id = m2.job_id))

/-! ## Concrete instances used by counterexamples and witnesses -/

/-- A user for the matching-run examples. -/
def c9user : DbUser := { id := 1, name := "u" }

/-- Criteria whose single keyword matches `c9job`'s title. -/
def c9crit : UserCriteria :=
  { user_id := 1, keywords_json := some ["designer"], updated_at := 5 }

/-- A job scoring exactly 40 against `c9crit` (title keyword coverage
1/1 gives 40; no description, location or salary contribution). -/
def c9job : Job :=
  { id := 7, title := "designer", company := "acme", url := "u9", job_board := "green" }

/-- A persisted MatchResult row for `(user 1, job 7)` with score 0.60,
as a previous run with score 60 would have stored it. -/
def c9matched : List MatchedJob :=
  [{ user_id := 1, job_id := 7, match_score := (3 : Rat) / 5 }]

/-- Default matched row for `List.getD`. -/
def dfltMatched : MatchedJob := { user_id := 0, job_id := 0, match_score := 0 }

/-- Breakdown of `c9job` against `c9crit` (title 40, rest 0). -/
def c9det : MatchDetails := { title_keywords_matched := ["designer"], title_score := 40 }

/-- Like `c9job` but with salary data, scoring 40 + 15 = 55. -/
def c9jobHigh : Job :=
  { id := 7, title := "designer", company := "acme", url := "u9", job_board := "green",
    salary_annual_min := some 1, salary_annual_max := some 2 }

/-- Breakdown of `c9jobHigh` against `c9crit`. -/
def c9highDet : MatchDetails :=
  { title_keywords_matched := ["designer"], title_score := 40,
    salary_in_range := true, salary_value := (some 1, some 2), salary_score := 15 }

/-- Summary of running `match_all_for_user` on the single job `c9job`
(score 40 < 50: counted below threshold). -/
def c9belowSummary : MatchSummary :=
  { user_id := 1, total_jobs := 1, jobs_below_threshold := 1 }

/-- Summary of running `match_all_for_user` on the single job
`c9jobHigh` (score 55 ≥ 50: existing row updated). -/
def c9highSummary : MatchSummary :=
  { user_id := 1, total_jobs := 1, jobs_matched := 1, existing_matches := 1 }

/-- A job carrying no salary information. -/
def jobNoSalary : Job :=
  { id := 1, title := "engineer", company := "acme", url := "u1", job_board := "doda" }

/-- A job with salary bounds. -/
def jobWithSalary : Job :=
  { id := 2, title := "engineer", company := "acme", url := "u2", job_board := "doda",
    salary_annual_min := some 5000000, salary_annual_max := some 6000000 }

/-- Criteria with no salary preference (and no keywords or locations). -/
def critNoSalaryPref : UserCriteria := { user_id := 1 }

/-- Criteria with one keyword. -/
def critOneKeyword : UserCriteria := { user_id := 1, keywords_json := some ["designer"] }

/-- Default job used with `List.getD` (the default is irrelevant: every
index in the theorems is in bounds). -/
def dfltJob : Job :=
  { id := 0, title := "", company := "", url := "", job_board := "" }

/-- Default adapter for `List.getD`. -/
def dfltAdapter : String × Except String (List JobData) := ("", .ok [])

/-- Default scraper result for `List.getD`. -/
def dfltResult : ScraperResult := { name := "", success := false }

/-- A stored job from board "a", active, last seen at time 0. -/
def staleJobA : Job :=
  { id := 3, title := "t", company := "c", url := "u3", job_board := "a",
    last_seen_at := 0, is_active := true }

/-- A scraped record whose URL collides with `staleJobA`. -/
def jdDup : JobData :=
  { title := "t2", company := "c2", url := "u3", job_board := "doda" }

/-- Three configured adapters of which exactly the second raises. -/
def adsC5 : List (String × Except String (List JobData)) :=
  [("green", .ok [jdDup]), ("doda", .error "boom"), ("indeed", .ok [])]

/-- The breakdown produced for `jobWithSalary` against `critOneKeyword`
(keyword misses, salary matches). -/
def c2det : MatchDetails :=
  { title_keywords_matched := []
    description_keywords_matched := []
    location_matched := false
    location_value := none
    salary_in_range := true
    salary_value := (some 5000000, some 6000000)
    title_score := 0
    description_score := 0
    location_score := 0
    salary_score := 15 }

/-! # Theorems -/

/-! ## General helper lemmas -/

theorem length_filter_add_length_filter_not (l : List α) (p : α → Bool) :
    (l.filter p).length + (l.filter (fun x => !p x)).length = l.length := by
  induction l with
  | nil => simp
  | cons x xs ih =>
    by_cases h : p x = true <;> simp [List.filter_cons, h, ← ih] <;> omega

theorem length_filter_conj_le (l : List α) (a b : α → Bool) :
    (l.filter (fun x => a x && b x)).length ≤ (l.filter a).length := by
  induction l with
  | nil => simp
  | cons x xs ih =>
    by_cases ha : a x = true
    · by_cases hb : b x = true
      · simpa [List.filter_cons, ha, hb] using ih
      · have hb' : b x = false := by simpa using hb
        simp only [List.filter_cons, ha, hb', Bool.and_false, if_neg Bool.false_ne_true,
          if_pos rfl, List.length_cons]
        exact Nat.le_succ_of_le ih
    · simp [List.filter_cons, ha, ih]

theorem div_weight_le (m k W : Nat) (hmk : m ≤ k) (hk : k ≠ 0) : m * W / k ≤ W := by
  calc m * W / k ≤ k * W / k := Nat.div_le_div_right (Nat.mul_le_mul_right W hmk)
    _ = W := Nat.mul_div_cancel_left W (Nat.pos_of_ne_zero hk)

theorem keyword_matches_length_le (t : Option String) (kws : List String) :
    (keyword_matches t kws).length ≤ kws.length := by
  unfold keyword_matches
  split
  · simp
  · exact List.length_filter_le _ _

theorem unique_bound_general (kws : List String) (pt pd : String → Bool) :
    ((kws.filter pd).filter (fun k => !((kws.filter pt).contains k))).length ≤
      kws.length - (kws.filter pt).length := by
  have hcongr : (kws.filter pd).filter (fun k => !((kws.filter pt).contains k)) =
      (kws.filter pd).filter (fun k => !pt k) := by
    apply List.filter_congr
    intro x hx
    obtain ⟨hxk, -⟩ := List.mem_filter.mp hx
    by_cases hpt : pt x = true
    · have hmem : x ∈ kws.filter pt := List.mem_filter.mpr ⟨hxk, hpt⟩
      have hcont : (kws.filter pt).contains x = true := by
        simpa [List.contains] using List.elem_iff.mpr hmem
      rw [hcont, hpt]
    · have hnmem : x ∉ kws.filter pt := fun hc => hpt (List.mem_filter.mp hc).2
      have hcont : (kws.filter pt).contains x = false := by
        by_contra hne
        exact hnmem (List.elem_iff.mp (by simpa [List.contains] using hne))
      have hpt' : pt x = false := by simpa using hpt
      rw [hcont, hpt']
  rw [hcongr, List.filter_filter]
  have h1 : (kws.filter (fun a => (!pt a) && pd a)).length ≤
      (kws.filter (fun a => !pt a)).length := length_filter_conj_le kws _ pd
  have h2 := length_filter_add_length_filter_not kws pt
  omega

theorem keyword_matches_eq_nil_or_filter (t : Option String) (kws : List String) :
    keyword_matches t kws = [] ∨ keyword_matches t kws = kws.filter (kwPred t) := by
  unfold keyword_matches
  split
  · exact Or.inl rfl
  · exact Or.inr rfl

theorem unique_desc_bound (t1 t2 : Option String) (kws : List String) :
    ((keyword_matches t2 kws).filter
        (fun k => !((keyword_matches t1 kws).contains k))).length ≤
      kws.length - (keyword_matches t1 kws).length := by
  rcases keyword_matches_eq_nil_or_filter t1 kws with h1 | h1 <;>
    rcases keyword_matches_eq_nil_or_filter t2 kws with h2 | h2 <;>
    rw [h1, h2]
  · simp
  · simp only [List.length_nil, Nat.sub_zero]
    calc ((kws.filter (kwPred t2)).filter _).length
        ≤ (kws.filter (kwPred t2)).length := List.length_filter_le _ _
      _ ≤ kws.length := List.length_filter_le _ _
  · simp
  · exact unique_bound_general kws _ _

theorem match_scores_bounds (job : Job) (criteria : UserCriteria) (b : Bool) :
    (match_scores job criteria b).2.title_score ≤ WEIGHT_TITLE_KEYWORDS ∧
    (match_scores job criteria b).2.description_score ≤ WEIGHT_DESCRIPTION_KEYWORDS ∧
    (match_scores job criteria b).2.location_score ≤ WEIGHT_LOCATION ∧
    (match_scores job criteria b).2.salary_score ≤ WEIGHT_SALARY ∧
    (match_scores job criteria b).1 =
      (match_scores job criteria b).2.title_score +
      (match_scores job criteria b).2.description_score +
      (match_scores job criteria b).2.location_score +
      (match_scores job criteria b).2.salary_score := by
  unfold match_scores
  dsimp only
  refine ⟨?_, ?_, ?_, ?_, rfl⟩
  · by_cases hne : criteria.keywords_json.getD [] = []
    · simp [hne]
    · have hne' : criteria.keywords_json.getD [] ≠ [] := hne
      have hklen : (criteria.keywords_json.getD []).length ≠ 0 := by
        intro h0
        exact hne' (List.eq_nil_of_length_eq_zero h0)
      simp only [if_pos hne']
      exact div_weight_le _ _ _ (keyword_matches_length_le _ _) hklen
  · by_cases hne : criteria.keywords_json.getD [] = []
    · simp [hne]
    · have hne' : criteria.keywords_json.getD [] ≠ [] := hne
      simp only [if_pos hne']
      split
      · next hrem =>
        refine div_weight_le _ _ _ ?_ (by omega)
        have := unique_desc_bound (some job.title) job.description
          (criteria.keywords_json.getD [])
        omega
      · split <;> simp [WEIGHT_DESCRIPTION_KEYWORDS]
  · split
    · split <;> simp [WEIGHT_LOCATION]
    · simp [WEIGHT_LOCATION]
  · split <;> simp [WEIGHT_SALARY]

theorem match_scores_salary_eq (job : Job) (criteria : UserCriteria) (b : Bool) :
    (match_scores job criteria b).2.salary_score = if b then WEIGHT_SALARY else 0 := rfl

/-! ## C2 -/

/-- C2: whenever the Match Scorer returns a total for a job and criteria
(including empty or missing keyword, location and salary fields), that
total is the sum of the four component scores, each component is bounded
by its weight (title 40, description 30, location 15, salary 15), and
the total is an integer in [0, 100]. -/
theorem c2_score_bounds (job : Job) (criteria : UserCriteria) (s : Nat) (d : MatchDetails)
    (h : match_job_to_user job criteria = .ok (s, d)) :
    d.title_score ≤ 40 ∧ d.description_score ≤ 30 ∧ d.location_score ≤ 15 ∧
    d.salary_score ≤ 15 ∧
    s = d.title_score + d.description_score + d.location_score + d.salary_score ∧
    s ≤ 100 := by
  unfold match_job_to_user at h
  cases hsal : salary_in_range job.salary_annual_min job.salary_annual_max
      criteria.min_salary criteria.max_salary with
  | error e =>
    rw [hsal] at h
    exact absurd h (by simp [Except.map])
  | ok b =>
    rw [hsal] at h
    simp only [Except.map, Except.ok.injEq] at h
    have hb := match_scores_bounds job criteria b
    rw [h] at hb
    simp only [WEIGHT_TITLE_KEYWORDS, WEIGHT_DESCRIPTION_KEYWORDS, WEIGHT_LOCATION,
      WEIGHT_SALARY] at hb
    obtain ⟨h1, h2, h3, h4, h5⟩ := hb
    exact ⟨h1, h2, h3, h4, h5, by omega⟩

/-- Witness for `c2_score_bounds` at a concrete job and criteria. -/
theorem c2_score_bounds_witness :
    match_job_to_user jobWithSalary critOneKeyword = .ok (15, c2det) ∧
    (c2det.title_score ≤ 40 ∧ c2det.description_score ≤ 30 ∧ c2det.location_score ≤ 15 ∧
      c2det.salary_score ≤ 15 ∧
      15 = c2det.title_score + c2det.description_score + c2det.location_score +
        c2det.salary_score ∧
      15 ≤ 100) :=
  ⟨rfl, c2_score_bounds jobWithSalary critOneKeyword 15 c2det rfl⟩

/-! ## C1 -/

/-- C1 counterexample: a job with no salary data against criteria with
no salary preference receives salary component 0, not the full
`W_salary = 15` the claim asserts (the job-absence check runs first in
`_salary_in_range`). -/
theorem c1_counterexample :
    (match_job_to_user jobNoSalary critNoSalaryPref).map (fun r => r.2.salary_score) =
      .ok 0 ∧ (0 : Nat) ≠ WEIGHT_SALARY :=
  ⟨rfl, by decide⟩

/-- C1 amended: with no salary preference on the criteria the salary
component is the full `W_salary = 15` whenever the job carries any
salary data, but a job with no salary data scores 0 — job absence
overrides criteria absence, not the other way round. -/
theorem c1_amended_salary_component (job : Job) (criteria : UserCriteria)
    (hmin : criteria.min_salary = none) (hmax : criteria.max_salary = none) :
    ((job.salary_annual_min = none ∧ job.salary_annual_max = none) →
      (match_job_to_user job criteria).map (fun r => r.2.salary_score) = .ok 0) ∧
    ((job.salary_annual_min ≠ none ∨ job.salary_annual_max ≠ none) →
      (match_job_to_user job criteria).map (fun r => r.2.salary_score) =
        .ok WEIGHT_SALARY) := by
  constructor
  · rintro ⟨h1, h2⟩
    unfold match_job_to_user
    have hs : salary_in_range job.salary_annual_min job.salary_annual_max
        criteria.min_salary criteria.max_salary = .ok false := by
      rw [h1, h2, hmin, hmax]
      rfl
    rw [hs]
    simp [Except.map, match_scores_salary_eq]
  · intro h
    unfold match_job_to_user
    have hs : salary_in_range job.salary_annual_min job.salary_annual_max
        criteria.min_salary criteria.max_salary = .ok true := by
      rw [hmin, hmax]
      cases hjm : job.salary_annual_min <;> cases hjx : job.salary_annual_max <;>
        simp_all [salary_in_range]
    rw [hs]
    simp [Except.map, match_scores_salary_eq]

/-- Witness for `c1_amended_salary_component`: criteria without salary
preference and a job with salary data receive the full component. -/
theorem c1_amended_witness :
    critNoSalaryPref.min_salary = none ∧
    (match_job_to_user jobWithSalary critNoSalaryPref).map (fun r => r.2.salary_score) =
      .ok WEIGHT_SALARY :=
  ⟨rfl, (c1_amended_salary_component jobWithSalary critNoSalaryPref rfl rfl).2
    (Or.inl (by decide))⟩

/-! ## C4 -/

/-- C4 counterexample: when the supplied source filter is the empty
string, `mark_stale_jobs_inactive` is *not* restricted to that source
(Python `if job_board:` drops a falsy filter): a stale record from board
"a" is flipped although the filter names a different source. -/
theorem c4_counterexample :
    staleJobA.job_board ≠ "" ∧ staleJobA.is_active = true ∧
    mark_stale_jobs_inactive [staleJobA] 864000 1 (some "") =
      ([{ staleJobA with is_active := false }], 1) :=
  ⟨by decide, rfl, rfl⟩

/-- C4 amended: the sweep flips `is_active` exactly on the records that
are active and last seen before `now - D` days, restricted to one source
when a *non-empty* source filter is supplied (an empty-string filter is
falsy in Python and behaves as no filter); every other record — already
inactive, seen within the window, or from another source — is returned
unchanged, and the returned count is the number of flipped records. -/
theorem c4_amended_sweep (db : List Job) (now D : Int) (board : Option String) :
    mark_stale_jobs_inactive db now D board =
      (db.map (fun j => if staleWhere now D board j then { j with is_active := false } else j),
       (db.filter (staleWhere now D board)).length) := by
  induction db with
  | nil => rfl
  | cons j rest ih =>
    simp only [mark_stale_jobs_inactive, List.foldr_cons] at ih ⊢
    rw [ih]
    by_cases h : staleWhere now D board j = true
    · simp [h, List.filter_cons]
    · simp [h, List.filter_cons]

/-! ## Lemmas about `firstIdxWhere` and `updateAt` -/

theorem firstIdxWhere_some (p : α → Bool) (d : α) :
    ∀ (l : List α) (i : Nat), firstIdxWhere p l = some i →
      i < l.length ∧ p (l.getD i d) = true ∧ ∀ k, k < i → p (l.getD k d) = false := by
  intro l
  induction l with
  | nil => intro i h; simp [firstIdxWhere] at h
  | cons x xs ih =>
    intro i h
    by_cases hx : p x = true
    · simp only [firstIdxWhere, if_pos hx] at h
      cases h
      exact ⟨by simp, by simpa using hx, fun k hk => absurd hk (by omega)⟩
    · simp only [firstIdxWhere, if_neg hx] at h
      cases hfi : firstIdxWhere p xs with
      | none => rw [hfi] at h; simp at h
      | some i' =>
        rw [hfi] at h
        simp only [Option.map] at h
        obtain ⟨h1, h2, h3⟩ := ih i' hfi
        cases h
        refine ⟨by simpa using h1, by simpa using h2, ?_⟩
        intro k hk
        match k with
        | 0 => simpa using hx
        | k' + 1 =>
          have : k' < i' := by omega
          simpa using h3 k' this

theorem firstIdxWhere_none (p : α → Bool) :
    ∀ l : List α, firstIdxWhere p l = none ↔ ∀ x ∈ l, p x = false := by
  intro l
  induction l with
  | nil => simp [firstIdxWhere]
  | cons x xs ih =>
    by_cases hx : p x = true
    · simp [firstIdxWhere, hx]
    · constructor
      · intro h y hy
        rcases List.mem_cons.mp hy with rfl | hy'
        · simpa using hx
        · refine (ih.mp ?_) y hy'
          simp only [firstIdxWhere, if_neg hx] at h
          cases hfi : firstIdxWhere p xs with
          | none => rfl
          | some i' => rw [hfi] at h; simp [Option.map] at h
      · intro h
        have hxs : firstIdxWhere p xs = none :=
          ih.mpr (fun y hy => h y (List.mem_cons_of_mem x hy))
        simp [firstIdxWhere, if_neg hx, hxs]

theorem updateAt_length (f : α → α) : ∀ (l : List α) (i : Nat),
    (updateAt i f l).length = l.length := by
  intro l
  induction l with
  | nil => intro i; simp [updateAt]
  | cons x xs ih =>
    intro i
    cases i with
    | zero => simp [updateAt]
    | succ j => simpa [updateAt] using ih j

theorem updateAt_getD_ne (f : α → α) (d : α) : ∀ (l : List α) (i k : Nat), k ≠ i →
    (updateAt i f l).getD k d = l.getD k d := by
  intro l
  induction l with
  | nil => intro i k _; simp [updateAt]
  | cons x xs ih =>
    intro i k hk
    cases i with
    | zero =>
      cases k with
      | zero => exact absurd rfl hk
      | succ k' => simp [updateAt]
    | succ j =>
      cases k with
      | zero => simp [updateAt]
      | succ k' => simpa [updateAt] using ih j k' (by omega)

theorem updateAt_getD_eq (f : α → α) (d : α) : ∀ (l : List α) (i : Nat), i < l.length →
    (updateAt i f l).getD i d = f (l.getD i d) := by
  intro l
  induction l with
  | nil => intro i h; simp at h
  | cons x xs ih =>
    intro i h
    cases i with
    | zero => simp [updateAt]
    | succ j => simpa [updateAt] using ih j (by simpa using h)

theorem getD_mem (d : α) : ∀ (l : List α) (i : Nat), i < l.length → l.getD i d ∈ l := by
  intro l
  induction l with
  | nil => intro i h; simp at h
  | cons x xs ih =>
    intro i h
    cases i with
    | zero => simp
    | succ j => exact List.mem_cons_of_mem x (ih j (by simpa using h))

/-! ## C3 -/

/-- C3: ingesting a record for an already stored posting — same URL, or
same fingerprint under a different URL — inserts no new row: the
existing record is found (first URL match if any, otherwise first
fingerprint match), only that record is updated, its `last_seen_at` is
refreshed and `is_active` reset to true, and the outcome is counted as
a duplicate. -/
theorem c3_duplicate_refresh (db : List Job) (jd : JobData) (now : Int)
    (h : ∃ r ∈ db, r.url = jd.url ∨
      r.fingerprint = some (generate_fingerprint jd.title jd.company jd.job_board)) :
    ∃ i, i < db.length ∧
      (ingest_job db jd now).2 = IngestOutcome.duplicate ∧
      (ingest_job db jd now).1.length = db.length ∧
      (∀ k, k ≠ i → (ingest_job db jd now).1.getD k dfltJob = db.getD k dfltJob) ∧
      (ingest_job db jd now).1.getD i dfltJob =
        { db.getD i dfltJob with last_seen_at := now, is_active := true } ∧
      (if ∃ r ∈ db, r.url = jd.url then
        (db.getD i dfltJob).url = jd.url ∧ ∀ k, k < i → (db.getD k dfltJob).url ≠ jd.url
       else
        (db.getD i dfltJob).fingerprint =
          some (generate_fingerprint jd.title jd.company jd.job_board) ∧
        ∀ k, k < i → (db.getD k dfltJob).fingerprint ≠
          some (generate_fingerprint jd.title jd.company jd.job_board)) := by
  cases hurl : firstIdxWhere (fun j => j.url = jd.url) db with
  | some i =>
    have hfd : find_duplicate_job db jd.url
        (generate_fingerprint jd.title jd.company jd.job_board) = some i := by
      simp [find_duplicate_job, hurl]
    obtain ⟨hlen, hp, hmin⟩ := firstIdxWhere_some _ dfltJob db i hurl
    have hred : (ingest_job db jd now).1 =
        updateAt i (fun j => { j with last_seen_at := now, is_active := true }) db := by
      simp [ingest_job, hfd]
    refine ⟨i, hlen, ?_, ?_, ?_, ?_, ?_⟩
    · simp [ingest_job, hfd]
    · rw [hred]; exact updateAt_length _ db i
    · intro k hk
      rw [hred]
      exact updateAt_getD_ne _ dfltJob db i k hk
    · rw [hred]
      exact updateAt_getD_eq _ dfltJob db i hlen
    · rw [if_pos ⟨db.getD i dfltJob, getD_mem _ db i hlen, by simpa using hp⟩]
      exact ⟨by simpa using hp, fun k hk => by simpa using hmin k hk⟩
  | none =>
    have hnourl : ∀ r ∈ db, r.url ≠ jd.url := by
      intro r hr
      have := (firstIdxWhere_none (fun j => j.url = jd.url) db).mp hurl r hr
      simpa using this
    have hfpm : ∃ r ∈ db, r.fingerprint =
        some (generate_fingerprint jd.title jd.company jd.job_board) := by
      obtain ⟨r, hr, hror⟩ := h
      rcases hror with hu | hf
      · exact absurd hu (hnourl r hr)
      · exact ⟨r, hr, hf⟩
    cases hfp : firstIdxWhere
        (fun j => j.fingerprint = some (generate_fingerprint jd.title jd.company jd.job_board))
        db with
    | none =>
      exfalso
      obtain ⟨r, hr, hf⟩ := hfpm
      have := (firstIdxWhere_none _ db).mp hfp r hr
      rw [hf] at this
      simp at this
    | some i =>
      have hfd : find_duplicate_job db jd.url
          (generate_fingerprint jd.title jd.company jd.job_board) = some i := by
        simp [find_duplicate_job, hurl, hfp]
      obtain ⟨hlen, hp, hmin⟩ := firstIdxWhere_some _ dfltJob db i hfp
      have hred : (ingest_job db jd now).1 =
          updateAt i (fun j => { j with last_seen_at := now, is_active := true }) db := by
        simp [ingest_job, hfd]
      refine ⟨i, hlen, ?_, ?_, ?_, ?_, ?_⟩
      · simp [ingest_job, hfd]
      · rw [hred]; exact updateAt_length _ db i
      · intro k hk
        rw [hred]
        exact updateAt_getD_ne _ dfltJob db i k hk
      · rw [hred]
        exact updateAt_getD_eq _ dfltJob db i hlen
      · rw [if_neg (by
          rintro ⟨r, hr, hu⟩
          exact hnourl r hr hu)]
        exact ⟨by simpa using hp, fun k hk => by simpa using hmin k hk⟩

/-- Witness for `c3_duplicate_refresh`: re-ingesting a record with the
URL of `staleJobA` is counted as a duplicate. -/
theorem c3_witness :
    (∃ r ∈ [staleJobA], r.url = jdDup.url ∨
      r.fingerprint = some (generate_fingerprint jdDup.title jdDup.company jdDup.job_board)) ∧
    (ingest_job [staleJobA] jdDup 5).2 = IngestOutcome.duplicate :=
  ⟨by decide, by
    obtain ⟨i, _, hdup, _⟩ := c3_duplicate_refresh [staleJobA] jdDup 5 (by decide)
    exact hdup⟩

/-! ## C5 -/

theorem store_step_counts (now : Int) (st : List Job × Nat × Nat) (jd : JobData) :
    (store_step now st jd).2.1 + (store_step now st jd).2.2 = st.2.1 + st.2.2 + 1 := by
  unfold store_step
  rcases hij : ingest_job st.1 jd now with ⟨db', oc⟩
  cases oc <;> simp [hij] <;> omega

theorem foldl_store_counts (now : Int) :
    ∀ (jobs : List JobData) (st : List Job × Nat × Nat),
      (jobs.foldl (store_step now) st).2.1 + (jobs.foldl (store_step now) st).2.2 =
        st.2.1 + st.2.2 + jobs.length := by
  intro jobs
  induction jobs with
  | nil => intro st; simp
  | cons jd rest ih =>
    intro st
    rw [List.foldl_cons, ih (store_step now st jd), store_step_counts]
    simp [List.length_cons]
    omega

/-- A completing adapter's result carries its real counts: `scraped` is
the number of jobs its search produced, and every one of them was
either added or recorded as a duplicate. -/
theorem run_scraper_ok_eq (name : String) (jobs : List JobData) (db : List Job) (now : Int) :
    run_scraper name (.ok jobs) db now =
      ({ name := name, success := true, jobs_scraped := jobs.length,
         jobs_added := (store_jobs db jobs now).2.1,
         duplicates := (store_jobs db jobs now).2.2, errors := 0 },
       (store_jobs db jobs now).1) := by
  unfold run_scraper
  rcases hs : store_jobs db jobs now with ⟨db', a, d⟩
  simp [hs]

theorem run_scraper_ok (name : String) (jobs : List JobData) (db : List Job) (now : Int) :
    (run_scraper name (.ok jobs) db now).1.success = true ∧
    (run_scraper name (.ok jobs) db now).1.name = name ∧
    (run_scraper name (.ok jobs) db now).1.jobs_scraped = jobs.length ∧
    (run_scraper name (.ok jobs) db now).1.jobs_added +
      (run_scraper name (.ok jobs) db now).1.duplicates = jobs.length := by
  refine ⟨?_, ?_, ?_, ?_⟩ <;> rw [run_scraper_ok_eq]
  have hc := foldl_store_counts now jobs (db, 0, 0)
  simpa [store_jobs] using hc

theorem run_all_length : ∀ (ads : List (String × Except String (List JobData)))
    (db : List Job) (now : Int),
    (run_all_scrapers ads db now).1.length = ads.length := by
  intro ads
  induction ads with
  | nil => intro db now; rfl
  | cons a rest ih =>
    intro db now
    rcases hr : run_scraper a.1 a.2 db now with ⟨r, db1⟩
    simp [run_all_scrapers, hr, ih db1 now]

theorem run_all_get : ∀ (ads : List (String × Except String (List JobData)))
    (db : List Job) (now : Int) (j : Nat), j < ads.length →
    ∃ db', (run_all_scrapers ads db now).1.getD j dfltResult =
      (run_scraper (ads.getD j dfltAdapter).1 (ads.getD j dfltAdapter).2 db' now).1 := by
  intro ads
  induction ads with
  | nil => intro db now j h; simp at h
  | cons a rest ih =>
    intro db now j hj
    rcases hr : run_scraper a.1 a.2 db now with ⟨r, db1⟩
    cases j with
    | zero =>
      refine ⟨db, ?_⟩
      simp [run_all_scrapers, hr]
    | succ j' =>
      obtain ⟨db', hdb⟩ := ih db1 now j' (by simpa using hj)
      refine ⟨db', ?_⟩
      simpa [run_all_scrapers, hr] using hdb

/-- C5: with N configured adapters of which exactly one raises, the
orchestrator's report holds exactly N results; the raising adapter's
result is failed and carries the exception message, and every other
adapter's result is successful with its real counts (scraped equals its
job count, and added plus duplicates account for every scraped job).
The exception neither terminates the run nor affects the siblings. -/
theorem c5_orchestrator_isolation (ads : List (String × Except String (List JobData)))
    (db : List Job) (now : Int) (i : Nat) (msg : String)
    (hi : i < ads.length)
    (herr : (ads.getD i dfltAdapter).2 = .error msg)
    (hok : ∀ j, j < ads.length → j ≠ i → ∃ jobs, (ads.getD j dfltAdapter).2 = .ok jobs) :
    (run_all_scrapers ads db now).1.length = ads.length ∧
    ((run_all_scrapers ads db now).1.getD i dfltResult).success = false ∧
    ((run_all_scrapers ads db now).1.getD i dfltResult).error_message = some msg ∧
    ((run_all_scrapers ads db now).1.getD i dfltResult).name = (ads.getD i dfltAdapter).1 ∧
    ∀ j, j < ads.length → j ≠ i →
      ((run_all_scrapers ads db now).1.getD j dfltResult).success = true ∧
      ((run_all_scrapers ads db now).1.getD j dfltResult).name = (ads.getD j dfltAdapter).1 ∧
      ∀ jobs, (ads.getD j dfltAdapter).2 = .ok jobs →
        ((run_all_scrapers ads db now).1.getD j dfltResult).jobs_scraped = jobs.length ∧
        ((run_all_scrapers ads db now).1.getD j dfltResult).jobs_added +
          ((run_all_scrapers ads db now).1.getD j dfltResult).duplicates = jobs.length := by
  obtain ⟨dbi, hdbi⟩ := run_all_get ads db now i hi
  rw [herr] at hdbi
  refine ⟨run_all_length ads db now, ?_, ?_, ?_, ?_⟩
  · rw [hdbi]; rfl
  · rw [hdbi]; rfl
  · rw [hdbi]; rfl
  · intro j hj hne
    obtain ⟨dbj, hdbj⟩ := run_all_get ads db now j hj
    obtain ⟨jobs, hjobs⟩ := hok j hj hne
    rw [hjobs] at hdbj
    obtain ⟨ho1, ho2, ho3, ho4⟩ := run_scraper_ok (ads.getD j dfltAdapter).1 jobs dbj now
    refine ⟨by rw [hdbj]; exact ho1, by rw [hdbj]; exact ho2, ?_⟩
    intro jobs' hjobs'
    rw [hjobs] at hjobs'
    cases hjobs'
    exact ⟨by rw [hdbj]; exact ho3, by rw [hdbj]; exact ho4⟩

/-- Witness for `c5_orchestrator_isolation` on three concrete adapters
with the second raising "boom". -/
theorem c5_witness :
    1 < adsC5.length ∧
    ((run_all_scrapers adsC5 [] 0).1.getD 1 dfltResult).success = false ∧
    ((run_all_scrapers adsC5 [] 0).1.getD 1 dfltResult).error_message = some "boom" ∧
    (run_all_scrapers adsC5 [] 0).1.length = 3 := by
  have h := c5_orchestrator_isolation adsC5 [] 0 1 "boom" (by decide) rfl
    (fun j hj hne => by
      have hj3 : j < 3 := by simpa [adsC5] using hj
      have : j = 0 ∨ j = 2 := by omega
      rcases this with rfl | rfl
      · exact ⟨[jdDup], rfl⟩
      · exact ⟨[], rfl⟩)
  exact ⟨by decide, h.2.1, h.2.2.1, by rw [h.1]; rfl⟩

/-! ## C6 -/

/-- C6 counterexample: a salary text with *no* periodicity marker at all
is not treated as monthly — "200,000円" (200,000, well below the
2,500,000 threshold) is returned unchanged, not multiplied by 12.  The
×12 conversion is only applied when a monthly marker is present. -/
theorem c6_counterexample :
    indeed_parse_salary (some "200,000円") = (some 200000, some 200000) ∧
    containsSub "月給" "200,000円" = false ∧ containsSub "月収" "200,000円" = false ∧
    containsSub "年収" "200,000円" = false ∧ containsSub "年俸" "200,000円" = false ∧
    (200000 : Int) < 2500000 ∧ (some (200000 : Int), some (200000 : Int)) ≠
      (some (2400000 : Int), some (2400000 : Int)) ∧
    doda_parse_salary (some "20万円") = (some 200000, some 200000) ∧
    containsSub "月給" "20万円" = false ∧ containsSub "月収" "20万円" = false := by
  refine ⟨rfl, rfl, rfl, rfl, rfl, by decide, by decide, rfl, rfl, rfl⟩

/-- C6 amended: the monthly ×12 conversion of the salary parser fires
exactly when a monthly marker is present and no annual marker is; each
extracted value below 2,500,000 is multiplied by 12 while values at or
above the threshold are left unchanged, and the result is the min and
max of the converted values.  (With no markers at all the values are
used as-is — see the counterexample.)  In particular
"月給 250,000円" yields (3000000, 3000000). -/
theorem c6_amended_monthly :
    (∀ (text : String) (a : Nat) (rest : List Nat),
      (containsSub "月給" text || containsSub "月収" text) = true →
      (containsSub "年収" text || containsSub "年俸" text) = false →
      ((indeedFindAll text).map (fun m =>
          let v := digitsToNat m
          if v < 1000 then v * 10000 else v)) = a :: rest →
      indeed_parse_salary (some text) =
        (some (((rest.map (fun x => if x < 2500000 then x * 12 else x)).foldl min
            (if a < 2500000 then a * 12 else a) : Nat) : Int),
         some (((rest.map (fun x => if x < 2500000 then x * 12 else x)).foldl max
            (if a < 2500000 then a * 12 else a) : Nat) : Int))) ∧
    indeed_parse_salary (some "月給 250,000円") = (some 3000000, some 3000000) ∧
    doda_parse_salary (some "月給25万円～30万円") = (some 3000000, some 3600000) := by
  refine ⟨?_, rfl, rfl⟩
  · intro text a rest hm ha hamt
    have htext : ¬(text = "") := by
      intro he
      subst he
      simp [indeedFindAll, findAllNum] at hamt
    have hms : indeedFindAll text ≠ [] := by
      intro he
      rw [he] at hamt
      simp at hamt
    simp only [indeed_parse_salary]
    rw [if_neg htext, if_neg hms, hamt, hm, ha]
    simp [List.foldl_map]

/-! ## C7 -/

/-- C7 counterexample: doda's annual pattern captures only numbers
directly tagged 年収/予定年収, so the annual range
"年収500万円～650万円" (annual 5,000,000 – 6,500,000) yields
(5000000, 5000000): the upper bound 650万円 is not matched, and the
result is not the claimed (5000000, 6500000). -/
theorem c7_counterexample :
    doda_parse_salary (some "年収500万円～650万円") = (some 5000000, some 5000000) ∧
    ((some (5000000 : Int), some (5000000 : Int)) ≠
      (some (5000000 : Int), some (6500000 : Int))) := by
  exact ⟨rfl, by decide⟩

/-- C7 amended: multiple matched numbers do form a range
`(min(values), max(values))` and a single matched number is duplicated
into both bounds, but which numbers are matched depends on the parser:
green's range pattern needs no per-bound tag, so
"年収500万円〜650万円" yields (5000000, 6500000) and a single
"年収500万円" is duplicated; doda's annual pattern matches only numbers
directly tagged 年収/予定年収, so both bounds must be tagged
("年収500万円～年収650万円") to produce the range, and in general the
result is the min and max over exactly the annual-tagged numbers. -/
theorem c7_amended_ranges :
    green_parse_salary (some "年収500万円〜650万円") = (some 5000000, some 6500000) ∧
    green_parse_salary (some "年収500万円") = (some 5000000, some 5000000) ∧
    doda_parse_salary (some "年収500万円～年収650万円") = (some 5000000, some 6500000) ∧
    (∀ (text : String) (m : List Char) (rest : List (List Char)),
      (containsSub "月給" text || containsSub "月収" text) = false →
      (containsSub "年収" text || containsSub "予定年収" text) = true →
      dodaAnnualFindAll text = m :: rest →
      doda_parse_salary (some text) =
        (some (((rest.map (fun x => digitsToNat x * 10000)).foldl min
            (digitsToNat m * 10000) : Nat) : Int),
         some (((rest.map (fun x => digitsToNat x * 10000)).foldl max
            (digitsToNat m * 10000) : Nat) : Int))) := by
  refine ⟨rfl, rfl, rfl, ?_⟩
  intro text m rest hm ha hms
  have htext : ¬(text = "") := by
    intro he
    subst he
    simp [dodaAnnualFindAll, dodaAnnualFindAllAux] at hms
  simp only [doda_parse_salary]
  rw [if_neg htext, hm, ha]
  simp only [Bool.true_and, Bool.and_false, Bool.false_and, Bool.and_true, Bool.not_true,
    Bool.false_eq_true, if_false, hms, reduceIte]
  simp [List.foldl_map]

/-- Witness for the universally quantified part of `c7_amended_ranges`:
both bounds annual-tagged. -/
theorem c7_amended_witness :
    dodaAnnualFindAll "年収500万円～年収650万円" = [['5', '0', '0'], ['6', '5', '0']] ∧
    doda_parse_salary (some "年収500万円～年収650万円") =
      (some ((([['6', '5', '0']].map (fun x => digitsToNat x * 10000)).foldl min
          (digitsToNat ['5', '0', '0'] * 10000) : Nat) : Int),
       some ((([['6', '5', '0']].map (fun x => digitsToNat x * 10000)).foldl max
          (digitsToNat ['5', '0', '0'] * 10000) : Nat) : Int)) :=
  ⟨rfl, c7_amended_ranges.2.2.2 "年収500万円～年収650万円" ['5', '0', '0'] [['6', '5', '0']]
    rfl rfl rfl⟩

/-- Witness for the universally quantified part of `c6_amended_monthly`. -/
theorem c6_amended_witness :
    (containsSub "月給" "月給 250,000円" || containsSub "月収" "月給 250,000円") = true ∧
    indeed_parse_salary (some "月給 250,000円") =
      (some ((([] : List Nat).foldl min (if 250000 < 2500000 then 250000 * 12 else 250000) :
        Nat) : Int),
       some ((([] : List Nat).foldl max (if 250000 < 2500000 then 250000 * 12 else 250000) :
        Nat) : Int)) :=
  ⟨rfl, by
    have h := c6_amended_monthly.1 "月給 250,000円" 250000 [] rfl rfl rfl
    simpa using h⟩

/-! ## C9 / C10 — lemmas about `match_all_for_user` -/

theorem bind_ok_inv {ε α β : Type} (x : Except ε α) (g : α → Except ε β) (b : β)
    (h : x >>= g = .ok b) : ∃ a, x = .ok a ∧ g a = .ok b := by
  cases x with
  | error e => simp [Bind.bind, Except.bind] at h
  | ok a => exact ⟨a, rfl, by simpa [Bind.bind, Except.bind] using h⟩

theorem mem_updateAt_self (f : α → α) (d : α) : ∀ (l : List α) (i : Nat), i < l.length →
    f (l.getD i d) ∈ updateAt i f l := by
  intro l
  induction l with
  | nil => intro i h; simp at h
  | cons x xs ih =>
    intro i h
    cases i with
    | zero => simp [updateAt]
    | succ j =>
      simp only [updateAt, List.getD_cons_succ]
      exact List.mem_cons_of_mem x (ih j (by simpa using h))

theorem mem_updateAt_of_ne (f : α → α) (d : α) : ∀ (l : List α) (i : Nat) (x : α),
    x ∈ l → x ≠ l.getD i d → x ∈ updateAt i f l := by
  intro l
  induction l with
  | nil => intro i x h _; simp at h
  | cons y ys ih =>
    intro i x hx hne
    cases i with
    | zero =>
      rcases List.mem_cons.mp hx with rfl | hx'
      · rw [List.getD_cons_zero] at hne
        exact absurd rfl hne
      · exact List.mem_cons_of_mem _ (by simpa [updateAt] using hx')
    | succ j =>
      rcases List.mem_cons.mp hx with rfl | hx'
      · simp [updateAt]
      · simp only [updateAt, List.mem_cons]
        exact Or.inr (ih j x hx' (by simpa using hne))

theorem mem_updateAt (f : α → α) : ∀ (l : List α) (i : Nat) (y : α),
    y ∈ updateAt i f l → y ∈ l ∨ ∃ x ∈ l, y = f x := by
  intro l
  induction l with
  | nil => intro i y h; simp [updateAt] at h
  | cons x xs ih =>
    intro i y hy
    cases i with
    | zero =>
      rcases List.mem_cons.mp (by simpa [updateAt] using hy) with rfl | hy'
      · exact Or.inr ⟨x, by simp, rfl⟩
      · exact Or.inl (List.mem_cons_of_mem x hy')
    | succ j =>
      rcases List.mem_cons.mp (by simpa [updateAt] using hy) with rfl | hy'
      · exact Or.inl (by simp)
      · rcases ih j y hy' with h | ⟨z, hz, rfl⟩
        · exact Or.inl (List.mem_cons_of_mem x h)
        · exact Or.inr ⟨z, List.mem_cons_of_mem x hz, rfl⟩

theorem filter_updateAt_eq (p : α → Bool) (f : α → α) (d : α) :
    ∀ (l : List α) (i : Nat), i < l.length →
    p (l.getD i d) = false → p (f (l.getD i d)) = false →
    (updateAt i f l).filter p = l.filter p := by
  intro l
  induction l with
  | nil => intro i h; simp at h
  | cons x xs ih =>
    intro i hlt h1 h2
    cases i with
    | zero =>
      simp only [List.getD_cons_zero] at h1 h2
      simp [updateAt, List.filter_cons, h1, h2]
    | succ j =>
      simp only [List.getD_cons_succ] at h1 h2
      simp only [updateAt, List.filter_cons]
      rw [ih j (by simpa using hlt) h1 h2]

theorem pairsUnique_updateAt (f : MatchedJob → MatchedJob)
    (hf : ∀ m, (f m).user_id = m.user_id ∧ (f m).job_id = m.job_id) :
    ∀ (l : List MatchedJob) (i : Nat), pairsUnique l → pairsUnique (updateAt i f l) := by
  intro l
  induction l with
  | nil => intro i h; simpa [updateAt] using h
  | cons x xs ih =>
    intro i hu
    rw [pairsUnique, List.pairwise_cons] at hu
    obtain ⟨hhead, htail⟩ := hu
    cases i with
    | zero =>
      rw [pairsUnique, updateAt, List.pairwise_cons]
      refine ⟨?_, htail⟩
      intro y hy
      rw [(hf x).1, (hf x).2]
      exact hhead y hy
    | succ j =>
      rw [pairsUnique, updateAt, List.pairwise_cons]
      refine ⟨?_, ih j htail⟩
      intro y hy
      rcases mem_updateAt f xs j y hy with h | ⟨z, hz, rfl⟩
      · exact hhead y h
      · rw [(hf z).1, (hf z).2]
        exact hhead z hz

theorem process_job_error (uid ms : Nat) (criteria : UserCriteria) (s : MatchSummary)
    (m : List MatchedJob) (job : Job) (e : Unit)
    (hm : match_job_to_user job criteria = .error e) :
    process_job uid ms criteria (s, m) job = .error e := by
  unfold process_job
  rw [hm]
  rfl

theorem process_job_below (uid ms : Nat) (criteria : UserCriteria) (s : MatchSummary)
    (m : List MatchedJob) (job : Job) (sc : Nat) (d : MatchDetails)
    (hm : match_job_to_user job criteria = .ok (sc, d)) (hlt : sc < ms) :
    process_job uid ms criteria (s, m) job =
      .ok ({ s with jobs_below_threshold := s.jobs_below_threshold + 1 }, m) := by
  unfold process_job
  rw [hm]
  simp only [Bind.bind, Except.bind]
  rw [if_neg (by omega)]

theorem process_job_update (uid ms : Nat) (criteria : UserCriteria) (s : MatchSummary)
    (m : List MatchedJob) (job : Job) (sc : Nat) (d : MatchDetails) (i : Nat)
    (hm : match_job_to_user job criteria = .ok (sc, d)) (hge : ms ≤ sc)
    (hfi : firstIdxWhere (fun r => r.user_id = uid && r.job_id = job.id) m = some i) :
    process_job uid ms criteria (s, m) job =
      .ok ({ s with
              jobs_matched := s.jobs_matched + 1
              existing_matches := s.existing_matches + 1 },
        updateAt i (fun r => { r with match_score := (sc : Rat) / 100 }) m) := by
  unfold process_job
  rw [hm]
  simp only [Bind.bind, Except.bind]
  rw [if_pos (by omega), hfi]

theorem process_job_insert (uid ms : Nat) (criteria : UserCriteria) (s : MatchSummary)
    (m : List MatchedJob) (job : Job) (sc : Nat) (d : MatchDetails)
    (hm : match_job_to_user job criteria = .ok (sc, d)) (hge : ms ≤ sc)
    (hfi : firstIdxWhere (fun r => r.user_id = uid && r.job_id = job.id) m = none) :
    process_job uid ms criteria (s, m) job =
      .ok ({ s with
              jobs_matched := s.jobs_matched + 1
              new_matches := s.new_matches + 1 },
        m ++ [{ user_id := uid, job_id := job.id, match_score := (sc : Rat) / 100 }]) := by
  unfold process_job
  rw [hm]
  simp only [Bind.bind, Except.bind]
  rw [if_pos (by omega), hfi]

theorem fold_frame (uid ms : Nat) (criteria : UserCriteria) (J : Nat) :
    ∀ (jobs : List Job) (s : MatchSummary) (m : List MatchedJob)
      (out : MatchSummary × List MatchedJob),
      (∀ job ∈ jobs, job.id ≠ J ∨ isBelow criteria ms job = true) →
      jobs.foldlM (process_job uid ms criteria) (s, m) = .ok out →
      out.2.filter (fun r => r.user_id = uid && r.job_id = J) =
        m.filter (fun r => r.user_id = uid && r.job_id = J) := by
  intro jobs
  induction jobs with
  | nil =>
    intro s m out _ h
    simp only [List.foldlM_nil] at h
    cases h
    rfl
  | cons j rest ih =>
    intro s m out hcond hfold
    rw [List.foldlM_cons] at hfold
    obtain ⟨st₁, h₁, h₂⟩ := bind_ok_inv _ _ _ hfold
    cases hm : match_job_to_user j criteria with
    | error e =>
      rw [process_job_error uid ms criteria s m j e hm] at h₁
      exact absurd h₁ (by simp)
    | ok p =>
      rcases p with ⟨sc, d⟩
      by_cases hge : ms ≤ sc
      · have hne : j.id ≠ J := by
          rcases hcond j (by simp) with h | h
          · exact h
          · exfalso
            unfold isBelow at h
            rw [hm] at h
            simp at h
            omega
        cases hfi : firstIdxWhere (fun r => r.user_id = uid && r.job_id = j.id) m with
        | some i =>
          rw [process_job_update uid ms criteria s m j sc d i hm hge hfi] at h₁
          cases h₁
          rw [ih _ _ out (fun job hj => hcond job (List.mem_cons_of_mem j hj)) h₂]
          obtain ⟨hlen, hp, -⟩ := firstIdxWhere_some _ dfltMatched m i hfi
          simp only [Bool.and_eq_true, decide_eq_true_eq] at hp
          apply filter_updateAt_eq _ _ dfltMatched m i hlen
          · rw [Bool.eq_false_iff]
            intro hcontra
            simp only [Bool.and_eq_true, decide_eq_true_eq] at hcontra
            exact hne (hp.2 ▸ hcontra.2)
          · rw [Bool.eq_false_iff]
            intro hcontra
            simp only [Bool.and_eq_true, decide_eq_true_eq] at hcontra
            exact hne (hp.2 ▸ hcontra.2)
        | none =>
          rw [process_job_insert uid ms criteria s m j sc d hm hge hfi] at h₁
          cases h₁
          rw [ih _ _ out (fun job hj => hcond job (List.mem_cons_of_mem j hj)) h₂]
          rw [List.filter_append]
          have : (List.filter (fun r : MatchedJob => r.user_id = uid && r.job_id = J)
              [{ user_id := uid, job_id := j.id, match_score := (sc : Rat) / 100 }]) = [] := by
            simp only [List.filter_cons, List.filter_nil]
            rw [if_neg]
            simp only [Bool.and_eq_true, decide_eq_true_eq, not_and]
            intro _
            exact hne
          rw [this, List.append_nil]
      · rw [process_job_below uid ms criteria s m j sc d hm (by omega)] at h₁
        cases h₁
        exact ih _ _ out (fun job hj => hcond job (List.mem_cons_of_mem j hj)) h₂

theorem fold_below_count (uid ms : Nat) (criteria : UserCriteria) :
    ∀ (jobs : List Job) (s : MatchSummary) (m : List MatchedJob)
      (out : MatchSummary × List MatchedJob),
      jobs.foldlM (process_job uid ms criteria) (s, m) = .ok out →
      out.1.jobs_below_threshold =
        s.jobs_below_threshold + (jobs.filter (isBelow criteria ms)).length := by
  intro jobs
  induction jobs with
  | nil =>
    intro s m out h
    simp only [List.foldlM_nil] at h
    cases h
    simp
  | cons j rest ih =>
    intro s m out hfold
    rw [List.foldlM_cons] at hfold
    obtain ⟨st₁, h₁, h₂⟩ := bind_ok_inv _ _ _ hfold
    cases hm : match_job_to_user j criteria with
    | error e =>
      rw [process_job_error uid ms criteria s m j e hm] at h₁
      exact absurd h₁ (by simp)
    | ok p =>
      rcases p with ⟨sc, d⟩
      have hbeq : isBelow criteria ms j = decide (sc < ms) := by
        unfold isBelow
        rw [hm]
      by_cases hge : ms ≤ sc
      · have hbf : isBelow criteria ms j = false := by rw [hbeq]; simp; omega
        cases hfi : firstIdxWhere (fun r => r.user_id = uid && r.job_id = j.id) m with
        | some i =>
          rw [process_job_update uid ms criteria s m j sc d i hm hge hfi] at h₁
          cases h₁
          rw [ih _ _ out h₂]
          simp [List.filter_cons, hbf]
        | none =>
          rw [process_job_insert uid ms criteria s m j sc d hm hge hfi] at h₁
          cases h₁
          rw [ih _ _ out h₂]
          simp [List.filter_cons, hbf]
      · have hbt : isBelow criteria ms j = true := by rw [hbeq]; simp; omega
        rw [process_job_below uid ms criteria s m j sc d hm (by omega)] at h₁
        cases h₁
        rw [ih _ _ out h₂]
        simp [List.filter_cons, hbt]
        omega

theorem fold_unique (uid ms : Nat) (criteria : UserCriteria) :
    ∀ (jobs : List Job) (s : MatchSummary) (m : List MatchedJob)
      (out : MatchSummary × List MatchedJob),
      pairsUnique m →
      jobs.foldlM (process_job uid ms criteria) (s, m) = .ok out →
      pairsUnique out.2 := by
  intro jobs
  induction jobs with
  | nil =>
    intro s m out hu h
    simp only [List.foldlM_nil] at h
    cases h
    exact hu
  | cons j rest ih =>
    intro s m out hu hfold
    rw [List.foldlM_cons] at hfold
    obtain ⟨st₁, h₁, h₂⟩ := bind_ok_inv _ _ _ hfold
    cases hm : match_job_to_user j criteria with
    | error e =>
      rw [process_job_error uid ms criteria s m j e hm] at h₁
      exact absurd h₁ (by simp)
    | ok p =>
      rcases p with ⟨sc, d⟩
      by_cases hge : ms ≤ sc
      · cases hfi : firstIdxWhere (fun r => r.user_id = uid && r.job_id = j.id) m with
        | some i =>
          rw [process_job_update uid ms criteria s m j sc d i hm hge hfi] at h₁
          cases h₁
          refine ih _ _ out ?_ h₂
          exact pairsUnique_updateAt (fun r => { r with match_score := (sc : Rat) / 100 })
            (fun r => ⟨rfl, rfl⟩) m i hu
        | none =>
          rw [process_job_insert uid ms criteria s m j sc d hm hge hfi] at h₁
          cases h₁
          refine ih _ _ out ?_ h₂
          rw [pairsUnique, List.pairwise_append]
          refine ⟨hu, by simp [List.pairwise_cons], ?_⟩
          intro x hx y hy
          simp only [List.mem_singleton] at hy
          subst hy
          have hfalse := (firstIdxWhere_none _ m).mp hfi x hx
          simp only [Bool.and_eq_true, decide_eq_true_eq] at hfalse
          intro ⟨he1, he2⟩
          rw [Bool.and_eq_false_iff] at hfalse
          rcases hfalse with hf | hf <;> simp only [decide_eq_false_iff_not] at hf
          · exact hf he1
          · exact hf he2
      · rw [process_job_below uid ms criteria s m j sc d hm (by omega)] at h₁
        cases h₁
        exact ih _ _ out hu h₂

theorem fold_exists (uid ms : Nat) (criteria : UserCriteria) (J : Nat) (v : Rat) :
    ∀ (jobs : List Job) (s : MatchSummary) (m : List MatchedJob)
      (out : MatchSummary × List MatchedJob),
      (∀ job ∈ jobs, job.id ≠ J) →
      (∃ row ∈ m, row.user_id = uid ∧ row.job_id = J ∧ row.match_score = v) →
      jobs.foldlM (process_job uid ms criteria) (s, m) = .ok out →
      ∃ row ∈ out.2, row.user_id = uid ∧ row.job_id = J ∧ row.match_score = v := by
  intro jobs
  induction jobs with
  | nil =>
    intro s m out _ hex h
    simp only [List.foldlM_nil] at h
    cases h
    exact hex
  | cons j rest ih =>
    intro s m out hne hex hfold
    rw [List.foldlM_cons] at hfold
    obtain ⟨st₁, h₁, h₂⟩ := bind_ok_inv _ _ _ hfold
    cases hm : match_job_to_user j criteria with
    | error e =>
      rw [process_job_error uid ms criteria s m j e hm] at h₁
      exact absurd h₁ (by simp)
    | ok p =>
      rcases p with ⟨sc, d⟩
      obtain ⟨row, hrow, hr1, hr2, hr3⟩ := hex
      by_cases hge : ms ≤ sc
      · cases hfi : firstIdxWhere (fun r => r.user_id = uid && r.job_id = j.id) m with
        | some i =>
          rw [process_job_update uid ms criteria s m j sc d i hm hge hfi] at h₁
          cases h₁
          refine ih _ _ out (fun job hj => hne job (List.mem_cons_of_mem j hj)) ?_ h₂
          refine ⟨row, ?_, hr1, hr2, hr3⟩
          obtain ⟨hlen, hp, -⟩ := firstIdxWhere_some _ dfltMatched m i hfi
          simp only [Bool.and_eq_true, decide_eq_true_eq] at hp
          apply mem_updateAt_of_ne _ dfltMatched m i row hrow
          intro hcontra
          apply hne j (by simp)
          rw [← hp.2, ← hcontra, hr2]
        | none =>
          rw [process_job_insert uid ms criteria s m j sc d hm hge hfi] at h₁
          cases h₁
          refine ih _ _ out (fun job hj => hne job (List.mem_cons_of_mem j hj)) ?_ h₂
          exact ⟨row, List.mem_append_left _ hrow, hr1, hr2, hr3⟩
      · rw [process_job_below uid ms criteria s m j sc d hm (by omega)] at h₁
        cases h₁
        exact ih _ _ out (fun job hj => hne job (List.mem_cons_of_mem j hj))
          ⟨row, hrow, hr1, hr2, hr3⟩ h₂

theorem pairwise_cond_of_mem (jobs : List Job) (j : Job) (P : Job → Prop)
    (hids : jobs.Pairwise (fun a b => a.id ≠ b.id)) (hj : j ∈ jobs) (hPj : P j) :
    ∀ job ∈ jobs, job.id ≠ j.id ∨ P job := by
  induction jobs with
  | nil => simp
  | cons x rest ih =>
    obtain ⟨hhead, htail⟩ := List.pairwise_cons.mp hids
    intro job hjob
    rcases List.mem_cons.mp hj with rfl | hjrest
    · rcases List.mem_cons.mp hjob with rfl | hjobrest
      · exact Or.inr hPj
      · exact Or.inl (fun he => hhead job hjobrest he.symm)
    · rcases List.mem_cons.mp hjob with rfl | hjobrest
      · exact Or.inl (hhead j hjrest)
      · exact ih htail hjrest job hjobrest

theorem match_all_eq_fold (users : List DbUser) (criterias : List UserCriteria)
    (jobs : List Job) (matched : List MatchedJob) (uid ms : Nat)
    (criteria : UserCriteria) (u0 : DbUser)
    (hu : users.find? (fun u => u.id = uid) = some u0)
    (hc : latest_criteria criterias uid = some criteria) :
    match_all_for_user users criterias jobs matched uid ms =
      jobs.foldlM (process_job uid ms criteria)
        ({ user_id := uid, total_jobs := jobs.length }, matched) := by
  unfold match_all_for_user
  rw [hu, hc]

/-! ## C10 -/

/-- C10: in `match_all_for_user`, a job whose freshly computed score is
below `min_score` leaves every previously persisted row for that
`(user, job)` pair completely unchanged — neither deleted nor rescored —
and the run's below-threshold counter counts exactly the below-threshold
jobs. -/
theorem c10_below_frame (users : List DbUser) (criterias : List UserCriteria)
    (jobs : List Job) (matched : List MatchedJob) (uid ms : Nat)
    (criteria : UserCriteria) (u0 : DbUser) (s' : MatchSummary) (matched' : List MatchedJob)
    (hu : users.find? (fun u => u.id = uid) = some u0)
    (hc : latest_criteria criterias uid = some criteria)
    (hids : jobs.Pairwise (fun a b => a.id ≠ b.id))
    (hrun : match_all_for_user users criterias jobs matched uid ms = .ok (s', matched'))
    (j : Job) (hj : j ∈ jobs) (sc : Nat) (d : MatchDetails)
    (hscore : match_job_to_user j criteria = .ok (sc, d)) (hlt : sc < ms) :
    matched'.filter (fun r => r.user_id = uid && r.job_id = j.id) =
      matched.filter (fun r => r.user_id = uid && r.job_id = j.id) ∧
    s'.jobs_below_threshold = (jobs.filter (isBelow criteria ms)).length := by
  rw [match_all_eq_fold users criterias jobs matched uid ms criteria u0 hu hc] at hrun
  have hPj : isBelow criteria ms j = true := by
    unfold isBelow
    rw [hscore]
    simpa using hlt
  constructor
  · exact fold_frame uid ms criteria j.id jobs _ matched (s', matched')
      (pairwise_cond_of_mem jobs j (fun job => isBelow criteria ms job = true) hids hj hPj)
      hrun
  · have h := fold_below_count uid ms criteria jobs _ matched (s', matched') hrun
    simpa using h

/-- Witness for `c10_below_frame`: a job scoring 40 against threshold 50
leaves the stored 0.60 row untouched and is counted below threshold. -/
theorem c10_witness :
    (40 : Nat) < 50 ∧
    c9matched.filter (fun r => r.user_id = 1 && r.job_id = c9job.id) =
      c9matched.filter (fun r => r.user_id = 1 && r.job_id = c9job.id) ∧
    c9belowSummary.jobs_below_threshold = ([c9job].filter (isBelow c9crit 50)).length := by
  have h := c10_below_frame [c9user] [c9crit] [c9job] c9matched 1 50 c9crit c9user
    c9belowSummary c9matched rfl rfl (by simp) rfl c9job (by simp) 40 c9det rfl (by omega)
  exact ⟨by omega, h.1, h.2⟩

/-! ## C9 -/

/-- C9 counterexample: re-running after a job's score changed from 60
(stored as 0.60) to 40 with `min_score = 50` does *not* update the
existing MatchResult: the job is counted below threshold and the stored
row keeps score 0.60 (it is neither updated to 0.40 nor duplicated). -/
theorem c9_counterexample :
    match_all_for_user [c9user] [c9crit] [c9job] c9matched 1 50 =
      .ok (c9belowSummary, [{ user_id := 1, job_id := 7, match_score := (3 : Rat) / 5 }]) ∧
    (3 : Rat) / 5 ≠ (40 : Rat) / 100 := by
  constructor
  · rfl
  · intro h
    norm_num at h

/-- C9 amended: under a run of `match_all_for_user` (user and criteria
found), (a) at-most-one-row-per-(owner, job) is preserved; (b) every job
scoring at least `min_score` ends with a persisted row carrying its new
score — inserted if absent, updated in place if present; (c) a job
scoring below `min_score` leaves its rows exactly as they were (so a
score drop from 60 to 40 leaves the old 0.60 row unchanged rather than
updating or duplicating it). -/
theorem c9_upsert_invariant (users : List DbUser) (criterias : List UserCriteria)
    (jobs : List Job) (matched : List MatchedJob) (uid ms : Nat)
    (criteria : UserCriteria) (u0 : DbUser) (s' : MatchSummary) (matched' : List MatchedJob)
    (hu : users.find? (fun u => u.id = uid) = some u0)
    (hc : latest_criteria criterias uid = some criteria)
    (hids : jobs.Pairwise (fun a b => a.id ≠ b.id))
    (huniq : pairsUnique matched)
    (hrun : match_all_for_user users criterias jobs matched uid ms = .ok (s', matched')) :
    pairsUnique matched' ∧
    (∀ j ∈ jobs, ∀ (sc : Nat) (d : MatchDetails),
      match_job_to_user j criteria = .ok (sc, d) → ms ≤ sc →
      ∃ row ∈ matched', row.user_id = uid ∧ row.job_id = j.id ∧
        row.match_score = (sc : Rat) / 100) ∧
    (∀ j ∈ jobs, ∀ (sc : Nat) (d : MatchDetails),
      match_job_to_user j criteria = .ok (sc, d) → sc < ms →
      matched'.filter (fun r => r.user_id = uid && r.job_id = j.id) =
        matched.filter (fun r => r.user_id = uid && r.job_id = j.id)) := by
  rw [match_all_eq_fold users criterias jobs matched uid ms criteria u0 hu hc] at hrun
  refine ⟨?_, ?_, ?_⟩
  · exact fold_unique uid ms criteria jobs _ matched (s', matched') huniq hrun
  · intro j hj sc d hscore hge
    obtain ⟨pre, post, rfl⟩ := List.append_of_mem hj
    rw [List.foldlM_append] at hrun
    obtain ⟨mid, hmid, hrest⟩ := bind_ok_inv _ _ _ hrun
    rcases mid with ⟨s₁, m₁⟩
    rw [List.foldlM_cons] at hrest
    obtain ⟨st₂, hstep, hpost⟩ := bind_ok_inv _ _ _ hrest
    have hpostne : ∀ job ∈ post, job.id ≠ j.id := by
      have h2 := (List.pairwise_append.mp hids).2.1
      have h3 := (List.pairwise_cons.mp h2).1
      intro job hjob he
      exact (h3 job hjob) he.symm
    cases hfi : firstIdxWhere (fun r => r.user_id = uid && r.job_id = j.id) m₁ with
    | some i =>
      rw [process_job_update uid ms criteria s₁ m₁ j sc d i hscore hge hfi] at hstep
      cases hstep
      refine fold_exists uid ms criteria j.id ((sc : Rat) / 100) post _ _
        (s', matched') hpostne ?_ hpost
      obtain ⟨hlen, hp, -⟩ := firstIdxWhere_some _ dfltMatched m₁ i hfi
      simp only [Bool.and_eq_true, decide_eq_true_eq] at hp
      exact ⟨({ m₁.getD i dfltMatched with match_score := (sc : Rat) / 100 } : MatchedJob),
        mem_updateAt_self _ dfltMatched m₁ i hlen, hp.1, hp.2, rfl⟩
    | none =>
      rw [process_job_insert uid ms criteria s₁ m₁ j sc d hscore hge hfi] at hstep
      cases hstep
      refine fold_exists uid ms criteria j.id ((sc : Rat) / 100) post _ _
        (s', matched') hpostne ?_ hpost
      exact ⟨({ user_id := uid, job_id := j.id, match_score := (sc : Rat) / 100 } : MatchedJob),
        List.mem_append_right _ (by simp), rfl, rfl, rfl⟩
  · intro j hj sc d hscore hlt
    have hPj : isBelow criteria ms j = true := by
      unfold isBelow
      rw [hscore]
      simpa using hlt
    exact fold_frame uid ms criteria j.id jobs _ matched (s', matched')
      (pairwise_cond_of_mem jobs j (fun job => isBelow criteria ms job = true) hids hj hPj)
      hrun

/-- Witness for `c9_upsert_invariant`: a job scoring 55 ≥ 50 against an
existing 0.60 row gets that row updated in place to 0.55. -/
theorem c9_witness :
    pairsUnique c9matched ∧
    ∃ row ∈ ([{ user_id := 1, job_id := 7, match_score := (55 : Rat) / 100 }] :
        List MatchedJob),
      row.user_id = 1 ∧ row.job_id = c9jobHigh.id ∧
        row.match_score = ((55 : Nat) : Rat) / 100 := by
  have hUniq : pairsUnique c9matched := by simp [pairsUnique, c9matched]
  have h := c9_upsert_invariant [c9user] [c9crit] [c9jobHigh] c9matched 1 50 c9crit c9user
    c9highSummary ([{ user_id := 1, job_id := 7, match_score := (55 : Rat) / 100 }] :
      List MatchedJob)
    rfl rfl (by simp) hUniq rfl
  exact ⟨hUniq, h.2.1 c9jobHigh (by simp) 55 c9highDet rfl (by omega)⟩

/-! ## C8 — lemmas about strip, collapse, and the affix subs -/

theorem lstrip_cons_nonws (c : Char) (cs : List Char) (hc : isSpaceChar c = false) :
    lstrip (c :: cs) = c :: cs := by
  simp [lstrip, List.dropWhile_cons, hc]

theorem lstrip_cons_ws (c : Char) (cs : List Char) (hc : isSpaceChar c = true) :
    lstrip (c :: cs) = lstrip cs := by
  simp [lstrip, List.dropWhile_cons, hc]

theorem rstrip_nil : rstrip [] = [] := rfl

theorem rstrip_cons (c : Char) (cs : List Char) :
    rstrip (c :: cs) =
      match rstrip cs with
      | [] => if isSpaceChar c then [] else [c]
      | r => c :: r := by
  rfl

theorem rstrip_append : ∀ (x y : List Char),
    rstrip (x ++ y) = if rstrip y = [] then rstrip x else x ++ rstrip y := by
  intro x y
  induction x with
  | nil =>
    simp only [List.nil_append]
    by_cases h : rstrip y = []
    · rw [if_pos h, h, rstrip_nil]
    · rw [if_neg h]
  | cons c xs ih =>
    by_cases h : rstrip y = []
    · rw [if_pos h] at ih
      simp only [List.cons_append, rstrip_cons, ih, if_pos h]
    · rw [if_neg h] at ih
      have hne : xs ++ rstrip y ≠ [] := by
        intro hc
        exact h (List.append_eq_nil.mp hc).2
      simp only [List.cons_append, rstrip_cons, ih, if_neg h]

theorem rstrip_cons_of_ne (c : Char) (cs : List Char) (h : rstrip cs ≠ []) :
    rstrip (c :: cs) = c :: rstrip cs := by
  rw [rstrip_cons]
  cases hr : rstrip cs with
  | nil => exact absurd hr h
  | cons a t => rfl

theorem rstrip_eq_nil_cases (c : Char) (cs : List Char) (h : rstrip cs = []) :
    rstrip (c :: cs) = if isSpaceChar c then [] else [c] := by
  rw [rstrip_cons, h]

theorem rstrip_idem : ∀ x : List Char, rstrip (rstrip x) = rstrip x := by
  intro x
  induction x with
  | nil => rfl
  | cons c cs ih =>
    by_cases hr : rstrip cs = []
    · rw [rstrip_eq_nil_cases c cs hr]
      by_cases hc : isSpaceChar c = true
      · simp only [if_pos hc]
        rfl
      · have hc' : ¬isSpaceChar c = true := hc
        simp only [if_neg hc']
        rw [rstrip_eq_nil_cases c [] rfl, if_neg hc']
    · rw [rstrip_cons_of_ne c cs hr]
      have hne2 : rstrip (rstrip cs) ≠ [] := by
        rw [ih]
        exact hr
      rw [rstrip_cons_of_ne c (rstrip cs) hne2, ih]

theorem lstrip_rstrip_comm : ∀ x : List Char, rstrip (lstrip x) = lstrip (rstrip x) := by
  intro x
  induction x with
  | nil => rfl
  | cons c cs ih =>
    by_cases hc : isSpaceChar c = true
    · rw [lstrip_cons_ws c cs hc, ih]
      by_cases hr : rstrip cs = []
      · rw [rstrip_eq_nil_cases c cs hr, if_pos hc, hr]
      · rw [rstrip_cons_of_ne c cs hr, lstrip_cons_ws c (rstrip cs) hc]
    · have hc' : isSpaceChar c = false := by simpa using hc
      rw [lstrip_cons_nonws c cs hc']
      by_cases hr : rstrip cs = []
      · rw [rstrip_eq_nil_cases c cs hr, if_neg hc, lstrip_cons_nonws c [] hc']
      · rw [rstrip_cons_of_ne c cs hr, lstrip_cons_nonws c (rstrip cs) hc']

theorem pyStrip_rstrip_self : ∀ x : List Char, rstrip (pyStrip x) = pyStrip x := by
  intro x
  rw [pyStrip, lstrip_rstrip_comm, rstrip_idem]

theorem rstrip_cons_eq_nil (c : Char) (cs : List Char) (h : rstrip (c :: cs) = []) :
    isSpaceChar c = true ∧ rstrip cs = [] := by
  by_cases hr : rstrip cs = []
  · rw [rstrip_eq_nil_cases c cs hr] at h
    by_cases hc : isSpaceChar c = true
    · exact ⟨hc, hr⟩
    · rw [if_neg hc] at h
      simp at h
  · rw [rstrip_cons_of_ne c cs hr] at h
    simp at h

theorem collapseAux_nonws : ∀ (x : List Char) (b : Bool),
    (∀ a ∈ x, isSpaceChar a = false) → collapseAux b x = x := by
  intro x
  induction x with
  | nil => intro b _; rfl
  | cons c cs ih =>
    intro b hx
    have hc : isSpaceChar c = false := hx c (by simp)
    simp only [collapseAux, hc, Bool.false_eq_true, if_false, List.cons.injEq, true_and]
    exact ih false (fun a ha => hx a (List.mem_cons_of_mem c ha))

theorem collapseAux_true_of_rstrip_nil : ∀ x : List Char, rstrip x = [] →
    collapseAux true x = [] := by
  intro x
  induction x with
  | nil => intro _; rfl
  | cons c cs ih =>
    intro h
    obtain ⟨hc, hcs⟩ := rstrip_cons_eq_nil c cs h
    simp only [collapseAux, hc, if_true]
    exact ih hcs

theorem collapseAux_true_eq (z : List Char) :
    collapseAux true z = collapseAux false (lstrip z) := by
  induction z with
  | nil => rfl
  | cons c cs ih =>
    by_cases hc : isSpaceChar c = true
    · rw [lstrip_cons_ws c cs hc]
      simp only [collapseAux, hc, if_true]
      exact ih
    · have hc' : isSpaceChar c = false := by simpa using hc
      rw [lstrip_cons_nonws c cs hc']
      simp only [collapseAux, hc', Bool.false_eq_true, if_false]

theorem dropWhile_head_false (p : Char → Bool) : ∀ (l : List Char) (c : Char) (t : List Char),
    l.dropWhile p = c :: t → p c = false := by
  intro l
  induction l with
  | nil => intro c t h; simp [List.dropWhile] at h
  | cons a as ih =>
    intro c t h
    by_cases ha : p a = true
    · rw [List.dropWhile_cons, if_pos ha] at h
      exact ih c t h
    · rw [List.dropWhile_cons, if_neg ha] at h
      cases h
      simpa using ha

theorem lstrip_collapse_of_lstripped (u : List Char) :
    lstrip (collapseAux false (lstrip u)) = collapseAux false (lstrip u) := by
  cases hl : lstrip u with
  | nil => rfl
  | cons c t =>
    have hc : isSpaceChar c = false := dropWhile_head_false isSpaceChar u c t hl
    simp only [collapseAux, hc, Bool.false_eq_true, if_false]
    exact lstrip_cons_nonws c _ hc

theorem lstrip_collapse_comm (z : List Char) :
    lstrip (collapseAux false z) = collapseAux false (lstrip z) := by
  cases z with
  | nil => rfl
  | cons c rest =>
    by_cases hc : isSpaceChar c = true
    · rw [lstrip_cons_ws c rest hc]
      simp only [collapseAux, hc, if_true, Bool.false_eq_true, if_false]
      rw [lstrip_cons_ws ' ' _ (by decide), collapseAux_true_eq]
      exact lstrip_collapse_of_lstripped rest
    · have hc' : isSpaceChar c = false := by simpa using hc
      rw [lstrip_cons_nonws c rest hc']
      simp only [collapseAux, hc', Bool.false_eq_true, if_false]
      exact lstrip_cons_nonws c _ hc'

theorem collapseAux_append_left : ∀ (x z : List Char),
    (∀ a ∈ x, isSpaceChar a = false) →
    collapseAux false (x ++ z) = x ++ collapseAux false z := by
  intro x
  induction x with
  | nil => intro z _; rfl
  | cons c xs ih =>
    intro z hx
    have hc : isSpaceChar c = false := hx c (by simp)
    simp only [List.cons_append, collapseAux, hc, Bool.false_eq_true, if_false,
      List.cons.injEq, true_and]
    exact ih z (fun a ha => hx a (List.mem_cons_of_mem c ha))

theorem collapseAux_append_right (x : List Char) (hx : ∀ a ∈ x, isSpaceChar a = false)
    (hne : x ≠ []) : ∀ (y : List Char) (b : Bool),
    collapseAux b (y ++ x) = collapseAux b y ++ x := by
  intro y
  induction y with
  | nil =>
    intro b
    simp only [List.nil_append, collapseAux]
    cases b <;> exact collapseAux_nonws x _ hx
  | cons c ys ih =>
    intro b
    by_cases hc : isSpaceChar c = true
    · cases b
      · simp only [List.cons_append, collapseAux, hc, if_true, Bool.false_eq_true, if_false,
          List.append_eq, ih true]
      · simp only [List.cons_append, collapseAux, hc, if_true, List.append_eq, ih true]
    · have hc' : isSpaceChar c = false := by simpa using hc
      simp only [List.cons_append, collapseAux, hc', Bool.false_eq_true, if_false,
        List.append_eq, ih false]


theorem lstrip_append_nonws (c : Char) (t : List Char) (hc : isSpaceChar c = false) :
    ∀ x : List Char, lstrip (x ++ c :: t) = lstrip x ++ c :: t := by
  intro x
  induction x with
  | nil =>
    simp only [List.nil_append]
    rw [lstrip_cons_nonws c t hc]
    rfl
  | cons a as ih =>
    by_cases ha : isSpaceChar a = true
    · rw [List.cons_append, lstrip_cons_ws a _ ha, lstrip_cons_ws a as ha]
      exact ih
    · have ha' : isSpaceChar a = false := by simpa using ha
      rw [List.cons_append, lstrip_cons_nonws a _ ha', lstrip_cons_nonws a as ha',
        List.cons_append]

theorem rstrip_reverse : ∀ x : List Char,
    rstrip x = (x.reverse.dropWhile isSpaceChar).reverse := by
  intro x
  induction x using List.reverseRecOn with
  | nil => rfl
  | append_singleton ys c ih =>
    rw [rstrip_append ys [c]]
    by_cases hc : isSpaceChar c = true
    · have h1 : rstrip [c] = [] := by simp [rstrip, hc]
      rw [if_pos h1, ih]
      simp only [List.reverse_append, List.reverse_cons, List.reverse_nil, List.nil_append,
        List.singleton_append, List.dropWhile_cons, hc, if_true]
    · have hc' : isSpaceChar c = false := by simpa using hc
      have h1 : rstrip [c] = [c] := by simp [rstrip, hc']
      rw [if_neg (by rw [h1]; simp), h1]
      simp only [List.reverse_append, List.reverse_cons, List.reverse_nil, List.nil_append,
        List.singleton_append, List.dropWhile_cons, hc', Bool.false_eq_true, if_false,
        List.reverse_cons, List.reverse_reverse]

theorem isPrefixOf_append_self : ∀ (x y : List Char), x.isPrefixOf (x ++ y) = true := by
  intro x y
  induction x with
  | nil => simp [List.isPrefixOf]
  | cons a as ih => simp only [List.cons_append, List.isPrefixOf, beq_self_eq_true,
      Bool.true_and, List.append_eq, ih]

theorem collapseAux_false_of_rstrip_nil (z : List Char) (h : rstrip z = []) :
    collapseAux false z = [] ∨ collapseAux false z = [' '] := by
  cases z with
  | nil => exact Or.inl rfl
  | cons c cs =>
    obtain ⟨hc, hcs⟩ := rstrip_cons_eq_nil c cs h
    right
    simp only [collapseAux, hc, if_true, Bool.false_eq_true, if_false]
    rw [collapseAux_true_of_rstrip_nil cs hcs]

theorem collapse_rstrip_opt : ∀ (y : List Char) (b : Bool),
    ∃ opt : List Char, (opt = [] ∨ opt = [' ']) ∧
      collapseAux b y = collapseAux b (rstrip y) ++ opt := by
  intro y
  induction y with
  | nil => intro b; exact ⟨[], Or.inl rfl, by simp [rstrip]⟩
  | cons c cs ih =>
    intro b
    by_cases hr : rstrip cs = []
    · by_cases hc : isSpaceChar c = true
      · have h1 : rstrip (c :: cs) = [] := by rw [rstrip_eq_nil_cases c cs hr, if_pos hc]
        rw [h1]
        cases b
        · refine ⟨[' '], Or.inr rfl, ?_⟩
          simp only [collapseAux, hc, if_true, Bool.false_eq_true, if_false,
            collapseAux_true_of_rstrip_nil cs hr]
          rfl
        · refine ⟨[], Or.inl rfl, ?_⟩
          simp only [collapseAux, hc, if_true, collapseAux_true_of_rstrip_nil cs hr]
          rfl
      · have hc' : isSpaceChar c = false := by simpa using hc
        have h1 : rstrip (c :: cs) = [c] := by rw [rstrip_eq_nil_cases c cs hr, if_neg hc]
        rw [h1]
        rcases collapseAux_false_of_rstrip_nil cs hr with h2 | h2
        · refine ⟨[], Or.inl rfl, ?_⟩
          cases b <;>
            simp only [collapseAux, hc', Bool.false_eq_true, if_false, h2, List.append_nil]
        · refine ⟨[' '], Or.inr rfl, ?_⟩
          cases b <;>
            simp only [collapseAux, hc', Bool.false_eq_true, if_false, h2] <;> rfl
    · rw [rstrip_cons_of_ne c cs hr]
      by_cases hc : isSpaceChar c = true
      · obtain ⟨opt, hopt, heq⟩ := ih true
        refine ⟨opt, hopt, ?_⟩
        cases b
        · simp only [collapseAux, hc, if_true, Bool.false_eq_true, if_false, heq,
            List.cons_append]
        · simp only [collapseAux, hc, if_true, heq]
      · have hc' : isSpaceChar c = false := by simpa using hc
        obtain ⟨opt, hopt, heq⟩ := ih false
        refine ⟨opt, hopt, ?_⟩
        cases b <;>
          simp only [collapseAux, hc', Bool.false_eq_true, if_false, heq, List.cons_append]

theorem lstrip_rstrip_nil (x : List Char) (h : rstrip (lstrip x) = []) : lstrip x = [] := by
  cases hl : lstrip x with
  | nil => rfl
  | cons c t =>
    have hc : isSpaceChar c = false := dropWhile_head_false isSpaceChar x c t hl
    rw [hl] at h
    have h2 := (rstrip_cons_eq_nil c t h).1
    rw [h2] at hc
    exact absurd hc (by simp)

theorem rstrip_collapse_self : ∀ (z : List Char), rstrip z = z → z ≠ [] →
    ∀ b, rstrip (collapseAux b z) = collapseAux b z ∧ collapseAux b z ≠ [] := by
  intro z
  induction z with
  | nil => intro _ h; exact absurd rfl h
  | cons c cs ih =>
    intro hz _ b
    by_cases hcs : cs = []
    · subst hcs
      have hc : isSpaceChar c = false := by
        by_contra hcc
        have hcc' : isSpaceChar c = true := by simpa using hcc
        have h0 : rstrip [c] = [] := by simp [rstrip, hcc']
        rw [hz] at h0
        exact absurd h0 (by simp)
      have h1 : collapseAux b [c] = [c] := by
        refine collapseAux_nonws [c] b ?_
        intro a ha
        rw [List.mem_singleton] at ha
        subst ha
        exact hc
      rw [h1]
      exact ⟨hz, by simp⟩
    · have hrcs : rstrip cs = cs := by
        by_cases hr : rstrip cs = []
        · rw [rstrip_eq_nil_cases c cs hr] at hz
          by_cases hc : isSpaceChar c = true
          · rw [if_pos hc] at hz
            exact absurd hz.symm (by simp)
          · rw [if_neg hc] at hz
            injection hz with _ h2
            exact absurd h2.symm hcs
        · rw [rstrip_cons_of_ne c cs hr] at hz
          have h2 := congrArg List.tail hz
          simpa using h2
      have ihh := ih hrcs hcs
      by_cases hc : isSpaceChar c = true
      · obtain ⟨ha, hb⟩ := ihh true
        cases b
        · constructor
          · simp only [collapseAux, hc, if_true, Bool.false_eq_true, if_false]
            rw [rstrip_cons_of_ne ' ' _ (by rw [ha]; exact hb), ha]
          · simp [collapseAux, hc]
        · constructor
          · simp only [collapseAux, hc, if_true]
            exact ha
          · simp only [collapseAux, hc, if_true]
            exact hb
      · have hc' : isSpaceChar c = false := by simpa using hc
        obtain ⟨ha, hb⟩ := ihh false
        constructor
        · simp only [collapseAux, hc', Bool.false_eq_true, if_false]
          rw [rstrip_cons_of_ne c _ (by rw [ha]; exact hb), ha]
        · simp only [collapseAux, hc', Bool.false_eq_true, if_false]
          simp


theorem lowerL_append (x y : List Char) : lowerL (x ++ y) = lowerL x ++ lowerL y := by
  simp [lowerL]

theorem lowerL_affix : lowerL affixChars = affixChars := by decide

theorem affix_nonws : ∀ a ∈ affixChars, isSpaceChar a = false := by decide

theorem rstrip_affix : rstrip affixChars = affixChars := by decide

theorem affix_isPrefixOf_append (l z : List Char) (h : 4 ≤ l.length) :
    affixChars.isPrefixOf (l ++ z) = affixChars.isPrefixOf l := by
  rcases l with _ | ⟨a, _ | ⟨b, _ | ⟨c1, _ | ⟨d, t⟩⟩⟩⟩
  · simp at h
  · simp at h
  · simp at h
  · simp at h
  · simp [affixChars, List.isPrefixOf]

theorem affix_noFire (u opt : List Char) (hu : u ≠ []) (hopt : opt = [] ∨ opt = [' '])
    (hA : affixChars.isPrefixOf u = false) :
    affixChars.isPrefixOf (u ++ (opt ++ affixChars)) = false := by
  have e1 : ('式' == '株') = false := by decide
  have e2 : ('式' == ' ') = false := by decide
  have e3 : ('会' == '株') = false := by decide
  have e4 : ('会' == ' ') = false := by decide
  have e5 : ('社' == '株') = false := by decide
  have e6 : ('社' == ' ') = false := by decide
  rcases u with _ | ⟨a, _ | ⟨b, _ | ⟨c1, _ | ⟨d, t⟩⟩⟩⟩
  · exact absurd rfl hu
  · rcases hopt with h | h <;> subst h <;>
      simp [affixChars, List.isPrefixOf, e1, e2]
  · rcases hopt with h | h <;> subst h <;>
      simp [affixChars, List.isPrefixOf, e3, e4]
  · rcases hopt with h | h <;> subst h <;>
      simp [affixChars, List.isPrefixOf, e5, e6]
  · rw [affix_isPrefixOf_append (a :: b :: c1 :: d :: t) (opt ++ affixChars) (by simp)]
    exact hA


theorem normalize_text_eq (s : String) (h : s.data ≠ []) :
    normalize_text s = String.mk (pyStrip
      ((subSuffixAffix (subPrefixAffix (normCore s.data))).filter
        (fun ch => !isBracketChar ch))) := by
  simp only [normalize_text]
  rw [if_neg h]

theorem normalize_text_nil (s : String) (h : s.data = []) : normalize_text s = "" := by
  simp only [normalize_text]
  rw [if_pos h]

/-- Prepending the 株式会社 affix to a company name whose normal core does
not already start with the affix leaves `normalize_text` unchanged: the
anchored prefix substitution removes exactly the added affix and the
whitespace after it. -/
theorem normalize_affix_pre (c : String)
    (hA : affixChars.isPrefixOf (normCore c.data) = false) :
    normalize_text (String.mk (affixChars ++ c.data)) = normalize_text c := by
  have hne : (String.mk (affixChars ++ c.data)).data ≠ [] := by
    show affixChars ++ c.data ≠ []
    simp [affixChars]
  rw [normalize_text_eq _ hne]
  have hdata : (String.mk (affixChars ++ c.data)).data = affixChars ++ c.data := rfl
  rw [hdata]
  by_cases hx : rstrip (lowerL c.data) = []
  · have hcorePre : normCore (affixChars ++ c.data) = affixChars := by
      show collapseWs (pyStrip (lowerL (affixChars ++ c.data))) = affixChars
      rw [lowerL_append, lowerL_affix, pyStrip, rstrip_append, if_pos hx, rstrip_affix]
      decide
    rw [hcorePre]
    have hpre : subPrefixAffix affixChars = [] := by decide
    rw [hpre]
    have hLHS : String.mk (pyStrip ((subSuffixAffix ([] : List Char)).filter
        (fun ch => !isBracketChar ch))) = "" := by decide
    rw [hLHS]
    by_cases hw : c.data = []
    · rw [normalize_text_nil c hw]
    · rw [normalize_text_eq c hw]
      have hu : normCore c.data = [] := by
        show collapseWs (pyStrip (lowerL c.data)) = []
        rw [pyStrip, hx]
        rfl
      rw [hu]
      decide
  · have hwne : c.data ≠ [] := by
      intro h0
      rw [h0] at hx
      exact hx rfl
    rw [normalize_text_eq c hwne]
    have hcorePre : normCore (affixChars ++ c.data)
        = affixChars ++ collapseAux false (rstrip (lowerL c.data)) := by
      show collapseWs (pyStrip (lowerL (affixChars ++ c.data)))
        = affixChars ++ collapseAux false (rstrip (lowerL c.data))
      rw [lowerL_append, lowerL_affix, pyStrip, rstrip_append, if_neg hx]
      have hsplit : affixChars ++ rstrip (lowerL c.data)
          = '株' :: (['式', '会', '社'] ++ rstrip (lowerL c.data)) := rfl
      rw [hsplit, lstrip_cons_nonws '株' _ (by decide)]
      exact collapseAux_append_left affixChars _ affix_nonws
    rw [hcorePre]
    have hsub : subPrefixAffix (affixChars ++ collapseAux false (rstrip (lowerL c.data)))
        = normCore c.data := by
      simp only [subPrefixAffix, isPrefixOf_append_self, if_true]
      have hdrop : (affixChars ++ collapseAux false (rstrip (lowerL c.data))).drop 4
          = collapseAux false (rstrip (lowerL c.data)) := rfl
      rw [hdrop]
      show lstrip (collapseAux false (rstrip (lowerL c.data))) = normCore c.data
      rw [lstrip_collapse_comm]
      rfl
    rw [hsub]
    have hbase : subPrefixAffix (normCore c.data) = normCore c.data := by
      simp only [subPrefixAffix, hA, Bool.false_eq_true, if_false]
    rw [hbase]


theorem collapse_false_ne_nil (c0 : Char) (cs : List Char) :
    collapseAux false (c0 :: cs) ≠ [] := by
  by_cases hc : isSpaceChar c0 = true <;> simp [collapseAux, hc]

/-- Appending the 株式会社 affix to a company name whose normal core neither
starts nor ends with the affix leaves `normalize_text` unchanged: the
anchored suffix substitution removes exactly the added affix and the
whitespace before it. -/
theorem normalize_affix_suf (c : String)
    (hA : affixChars.isPrefixOf (normCore c.data) = false)
    (hB : affixChars.reverse.isPrefixOf (normCore c.data).reverse = false) :
    normalize_text (String.mk (c.data ++ affixChars)) = normalize_text c := by
  have hne : (String.mk (c.data ++ affixChars)).data ≠ [] := by
    show c.data ++ affixChars ≠ []
    simp [affixChars]
  rw [normalize_text_eq _ hne]
  have hdata : (String.mk (c.data ++ affixChars)).data = c.data ++ affixChars := rfl
  rw [hdata]
  have hcoreSuf : normCore (c.data ++ affixChars)
      = collapseAux false (lstrip (lowerL c.data)) ++ affixChars := by
    show collapseWs (pyStrip (lowerL (c.data ++ affixChars))) = _
    rw [lowerL_append, lowerL_affix, pyStrip, rstrip_append,
      if_neg (by rw [rstrip_affix]; simp [affixChars]), rstrip_affix]
    have hl : lstrip (lowerL c.data ++ affixChars) = lstrip (lowerL c.data) ++ affixChars := by
      have h0 : lowerL c.data ++ affixChars
          = lowerL c.data ++ '株' :: ['式', '会', '社'] := rfl
      rw [h0, lstrip_append_nonws '株' ['式', '会', '社'] (by decide)]
      rfl
    rw [hl]
    exact collapseAux_append_right affixChars affix_nonws (by simp [affixChars])
      (lstrip (lowerL c.data)) false
  rw [hcoreSuf]
  by_cases hu : normCore c.data = []
  · have hps : pyStrip (lowerL c.data) = [] := by
      cases hpse : pyStrip (lowerL c.data) with
      | nil => rfl
      | cons a as =>
        exfalso
        apply collapse_false_ne_nil a as
        have h5 : collapseWs (pyStrip (lowerL c.data)) = [] := hu
        rw [hpse] at h5
        exact h5
    have h1 : rstrip (lstrip (lowerL c.data)) = [] := by
      rw [lstrip_rstrip_comm]
      exact hps
    have h2 : lstrip (lowerL c.data) = [] := lstrip_rstrip_nil _ h1
    rw [h2]
    have h3 : collapseAux false ([] : List Char) ++ affixChars = affixChars := rfl
    rw [h3]
    have hfin : String.mk (pyStrip ((subSuffixAffix (subPrefixAffix affixChars)).filter
        (fun ch => !isBracketChar ch))) = "" := by decide
    rw [hfin]
    by_cases hw : c.data = []
    · rw [normalize_text_nil c hw]
    · rw [normalize_text_eq c hw, hu]
      decide
  · obtain ⟨opt, hopt, heq⟩ := collapse_rstrip_opt (lstrip (lowerL c.data)) false
    have hry : rstrip (lstrip (lowerL c.data)) = pyStrip (lowerL c.data) := by
      rw [lstrip_rstrip_comm]
      rfl
    rw [hry] at heq
    have heq2 : collapseAux false (lstrip (lowerL c.data)) = normCore c.data ++ opt := heq
    rw [heq2, List.append_assoc]
    have hnofire : subPrefixAffix (normCore c.data ++ (opt ++ affixChars))
        = normCore c.data ++ (opt ++ affixChars) := by
      simp only [subPrefixAffix, affix_noFire (normCore c.data) opt hu hopt hA,
        Bool.false_eq_true, if_false]
    rw [hnofire]
    have hpsne : pyStrip (lowerL c.data) ≠ [] := by
      intro h0
      apply hu
      show collapseWs (pyStrip (lowerL c.data)) = []
      rw [h0]
      rfl
    have hsuf : subSuffixAffix (normCore c.data ++ (opt ++ affixChars)) = normCore c.data := by
      simp only [subSuffixAffix]
      have hrev : (normCore c.data ++ (opt ++ affixChars)).reverse
          = affixChars.reverse ++ (opt.reverse ++ (normCore c.data).reverse) := by
        rw [List.reverse_append, List.reverse_append, List.append_assoc]
      rw [hrev, if_pos (isPrefixOf_append_self _ _)]
      have hdrop : (affixChars.reverse ++ (opt.reverse ++ (normCore c.data).reverse)).drop 4
          = opt.reverse ++ (normCore c.data).reverse :=
        List.drop_left' (by decide)
      rw [hdrop]
      have hdw : (opt.reverse ++ (normCore c.data).reverse).dropWhile isSpaceChar
          = (normCore c.data).reverse.dropWhile isSpaceChar := by
        rcases hopt with h | h <;> subst h
        · rfl
        · have hsp : isSpaceChar ' ' = true := by decide
          simp [List.dropWhile_cons, hsp]
      rw [hdw, ← rstrip_reverse]
      exact (rstrip_collapse_self (pyStrip (lowerL c.data)) (pyStrip_rstrip_self _)
        hpsne false).1
    rw [hsuf]
    have hwne : c.data ≠ [] := by
      intro h0
      apply hu
      rw [h0]
      rfl
    rw [normalize_text_eq c hwne]
    have hbase1 : subPrefixAffix (normCore c.data) = normCore c.data := by
      simp only [subPrefixAffix, hA, Bool.false_eq_true, if_false]
    have hbase2 : subSuffixAffix (normCore c.data) = normCore c.data := by
      simp only [subSuffixAffix, hB, Bool.false_eq_true, if_false]
    rw [hbase1, hbase2]


theorem generate_fingerprint_congr (t s c1 c2 : String)
    (h : normalize_text c1 = normalize_text c2) :
    generate_fingerprint t c1 s = generate_fingerprint t c2 s := by
  simp only [generate_fingerprint, h]

/-- C8: the fingerprint function is pure and deterministic (repeated calls
on the same (title, company, job_board) triple return the same value), and
normalization strips the legal-entity affix: for a company name whose
normal core does not itself start or end with 株式会社, spelling the name
with the affix as a prefix or as a suffix produces the identical
fingerprint. -/
theorem c8_fingerprint_affix (t c s : String)
    (hA : affixChars.isPrefixOf (normCore c.data) = false)
    (hB : affixChars.reverse.isPrefixOf (normCore c.data).reverse = false) :
    generate_fingerprint t c s = generate_fingerprint t c s ∧
    generate_fingerprint t (String.mk (affixChars ++ c.data)) s
      = generate_fingerprint t c s ∧
    generate_fingerprint t (String.mk (c.data ++ affixChars)) s
      = generate_fingerprint t c s :=
  ⟨rfl,
   generate_fingerprint_congr t s _ c (normalize_affix_pre c hA),
   generate_fingerprint_congr t s _ c (normalize_affix_suf c hA hB)⟩

/-- Witness for C8 at the company name テスト on the indeed board: both
affix spellings fingerprint identically to the bare name. -/
theorem c8_fingerprint_affix_witness :
    (affixChars.isPrefixOf (normCore (String.data "テスト")) = false ∧
     affixChars.reverse.isPrefixOf (normCore (String.data "テスト")).reverse = false) ∧
    generate_fingerprint "エンジニア" (String.mk (affixChars ++ String.data "テスト")) "indeed"
      = generate_fingerprint "エンジニア" "テスト" "indeed" ∧
    generate_fingerprint "エンジニア" (String.mk (String.data "テスト" ++ affixChars)) "indeed"
      = generate_fingerprint "エンジニア" "テスト" "indeed" :=
  ⟨⟨by decide, by decide⟩,
   (c8_fingerprint_affix "エンジニア" "テスト" "indeed" (by decide) (by decide)).2.1,
   (c8_fingerprint_affix "エンジニア" "テスト" "indeed" (by decide) (by decide)).2.2⟩

end JobAgent
